import Mathlib

/-!
Verification development for the BingoMaster real-time trivia-bingo coordinator.

The definitions below are a shallow embedding of the relevant source code:

* `checkBingoPattern` embeds `checkBingoPattern` from
  `client/src/lib/utils.ts` (board geometry / win detection);
* the vote-tally functions embed the two consensus paths in
  `server/controllers/game.ts` (`checkGroupConsensus` and the tally inside
  `handleRevealAnswer`);
* the storage operations embed the methods of `MemStorage` — the storage
  the server binds (`export const storage = new MemStorage()` in
  `server/storage.ts`) — (`getNextQuestion`, `updateCurrentQuestion`,
  `recordPlayerAnswer`, `setGroupAnswer`, `getGroupCorrectAnswers`,
  `setGroupBingo`, ...), with the in-memory game object restricted to one
  game and its arrays and maps represented as lists;
* the WebSocket message dispatcher and the individual event handlers embed
  `handleWebSocketConnection`'s message switch and the handler functions,
  with storage failures modelled by an explicit fault schedule (one Boolean
  per storage call) and JavaScript exceptions modelled by an error result
  that carries the state and messages produced before the throw.

JavaScript peculiarities that matter are embedded explicitly: `Map`
iteration order (insertion order, preserved on overwrite), truthiness tests
on strings (`if (mostCommonAnswer)`), `parseInt` prefix parsing, and
`charCodeAt(0)` on the position label.
-/

namespace Bingo

/-! ### JavaScript primitives used by the board geometry code -/

/-- Value of a decimal digit character. -/
def digitVal (c : Char) : Nat := c.toNat - 48

/-- Value of a hexadecimal digit character. -/
def hexDigitVal (c : Char) : Nat :=
  if decide ('0' ≤ c ∧ c ≤ '9') then c.toNat - 48
  else if decide ('a' ≤ c ∧ c ≤ 'f') then c.toNat - 87
  else c.toNat - 55

/-- Decimal digit test. -/
def isDecDigit (c : Char) : Bool := decide ('0' ≤ c ∧ c ≤ '9')

/-- Hexadecimal digit test. -/
def isHexDigit (c : Char) : Bool :=
  decide (('0' ≤ c ∧ c ≤ '9') ∨ ('a' ≤ c ∧ c ≤ 'f') ∨ ('A' ≤ c ∧ c ≤ 'F'))

/-- Accumulate a digit list into a number in the given base. -/
def digitsToNat (base : Nat) (toVal : Char → Nat) (ds : List Char) : Nat :=
  ds.foldl (fun acc c => acc * base + toVal c) 0

/-- JavaScript whitespace test (the characters relevant here). -/
def isJsSpace (c : Char) : Bool := decide (c = ' ' ∨ c = '\t' ∨ c = '\n' ∨ c = '\r')

/-- Decimal branch of `parseInt`: longest digit prefix, `none` for NaN. -/
def jsParseDec (sign : Int) (cs : List Char) : Option Int :=
  let ds := cs.takeWhile isDecDigit
  if ds.isEmpty then none else some (sign * (digitsToNat 10 digitVal ds : Nat))

/-- Embedding of JavaScript `parseInt(s)` (radix unspecified): skip
whitespace, optional sign, `0x`-prefixed hexadecimal or decimal digit
prefix; `none` models `NaN`. -/
def jsParseIntChars (cs0 : List Char) : Option Int :=
  let cs1 := cs0.dropWhile isJsSpace
  let sign : Int := match cs1.head? with | some '-' => -1 | _ => 1
  let cs2 := match cs1 with
    | '-' :: r => r
    | '+' :: r => r
    | r => r
  match cs2 with
  | '0' :: x :: r =>
    if x = 'x' ∨ x = 'X' then
      let ds := r.takeWhile isHexDigit
      if ds.isEmpty then none else some (sign * (digitsToNat 16 hexDigitVal ds : Nat))
    else jsParseDec sign cs2
  | _ => jsParseDec sign cs2

/-- Embedding of `pos.charCodeAt(0) - 65` and `parseInt(pos.substring(1)) - 1`
from `checkBingoPattern`; `none` when either value is `NaN` (in which case
the in-range test in the source is false and the position is skipped). -/
def posRowCol (pos : String) : Option (Int × Int) :=
  match pos.data with
  | [] => none
  | c :: rest =>
    match jsParseIntChars rest with
    | none => none
    | some n => some ((c.toNat : Int) - 65, n - 1)

/-! ### Board geometry (`checkBingoPattern` in `client/src/lib/utils.ts`) -/

/-- Whether the marking loop of `checkBingoPattern` sets `board[r][c]`:
some position in the list parses to row `r`, column `c` and passes the
in-range check. -/
def markedCell (markedPositions : List String) (boardSize : Nat) (r c : Nat) : Bool :=
  markedPositions.any fun pos =>
    match posRowCol pos with
    | some rc =>
      decide (0 ≤ rc.1 ∧ rc.1 < (boardSize : Int) ∧ 0 ≤ rc.2 ∧ rc.2 < (boardSize : Int) ∧
        rc.1 = (r : Int) ∧ rc.2 = (c : Int))
    | none => false

/-- Position label, `String.fromCharCode(65 + i)` followed by the 1-based
column number. -/
def posLabel (i j : Nat) : String := String.mk [Char.ofNat (65 + i)] ++ toString (j + 1)

/-- Embedding of `checkBingoPattern(markedPositions, boardSize)`: rows
top-to-bottom, then columns left-to-right, then the two diagonals; `none`
models the `null` return. -/
def checkBingoPattern (markedPositions : List String) (boardSize : Nat) :
    Option (List String) :=
  match (List.range boardSize).find?
      (fun i => (List.range boardSize).all fun j => markedCell markedPositions boardSize i j) with
  | some i => some ((List.range boardSize).map fun j => posLabel i j)
  | none =>
  match (List.range boardSize).find?
      (fun j => (List.range boardSize).all fun i => markedCell markedPositions boardSize i j) with
  | some j => some ((List.range boardSize).map fun i => posLabel i j)
  | none =>
  if (List.range boardSize).all (fun i => markedCell markedPositions boardSize i i) then
    some ((List.range boardSize).map fun i => posLabel i i)
  else if (List.range boardSize).all
      (fun i => markedCell markedPositions boardSize i (boardSize - 1 - i)) then
    some ((List.range boardSize).map fun i => posLabel i (boardSize - 1 - i))
  else none

/-! ### Spec-side win detection (`detectWinPattern`, modelled from the
spec's words for the refinement comparison) -/

/-- Cells of row `i`, left to right. -/
def rowCells (boardSize i : Nat) : List (Nat × Nat) :=
  (List.range boardSize).map fun j => (i, j)

/-- Cells of column `j`, top to bottom. -/
def colCells (boardSize j : Nat) : List (Nat × Nat) :=
  (List.range boardSize).map fun i => (i, j)

/-- Cells of the top-left-to-bottom-right diagonal. -/
def diagCells (boardSize : Nat) : List (Nat × Nat) :=
  (List.range boardSize).map fun i => (i, i)

/-- Cells of the top-right-to-bottom-left diagonal. -/
def antiDiagCells (boardSize : Nat) : List (Nat × Nat) :=
  (List.range boardSize).map fun i => (i, boardSize - 1 - i)

/-- Modelled from the spec: the candidate lines in the spec's check order —
rows top-to-bottom, then columns left-to-right, then the two diagonals. -/
def specLines (boardSize : Nat) : List (List (Nat × Nat)) :=
  ((List.range boardSize).map (rowCells boardSize)) ++
  ((List.range boardSize).map (colCells boardSize)) ++
  [diagCells boardSize, antiDiagCells boardSize]

/-- A line is complete when every one of its cells is marked. -/
def lineComplete (markedPositions : List String) (boardSize : Nat)
    (line : List (Nat × Nat)) : Bool :=
  line.all fun rc => markedCell markedPositions boardSize rc.1 rc.2

/-- Modelled from the spec: return the first complete line in the spec's
check order, as position labels. -/
def detectWinPattern (markedPositions : List String) (boardSize : Nat) :
    Option (List String) :=
  ((specLines boardSize).find? (lineComplete markedPositions boardSize)).map
    fun line => line.map fun rc => posLabel rc.1 rc.2

/-- The distinct in-range board cells denoted by the marked positions. -/
def markedCells (markedPositions : List String) (boardSize : Nat) : Finset (Nat × Nat) :=
  (markedPositions.filterMap fun pos =>
    match posRowCol pos with
    | some rc =>
      if 0 ≤ rc.1 ∧ rc.1 < (boardSize : Int) ∧ 0 ≤ rc.2 ∧ rc.2 < (boardSize : Int) then
        some (rc.1.toNat, rc.2.toNat)
      else none
    | none => none).toFinset

/-- A position label is in range when it parses to a cell of the board. -/
def inRangePos (boardSize : Nat) (pos : String) : Bool :=
  match posRowCol pos with
  | some rc =>
    decide (0 ≤ rc.1 ∧ rc.1 < (boardSize : Int) ∧ 0 ≤ rc.2 ∧ rc.2 < (boardSize : Int))
  | none => false


/-! ### Vote tally: the two consensus paths in `server/controllers/game.ts` -/

/-- JavaScript `Map.get` on an insertion-ordered association list. -/
def lookupA {α : Type} (m : List (String × α)) (k : String) : Option α :=
  match m with
  | [] => none
  | e :: r => if e.1 = k then some e.2 else lookupA r k

/-- One vote added to the `answerCounts` map:
`answerCounts.set(cellId, (answerCounts.get(cellId) || 0) + 1)` on a
JavaScript `Map`, whose iteration order is insertion order and is preserved
when an existing key is overwritten. -/
def mapInc (m : List (String × Nat)) (k : String) : List (String × Nat) :=
  match m with
  | [] => [(k, 1)]
  | e :: r => if e.1 = k then (e.1, e.2 + 1) :: r else e :: mapInc r k

/-- The `answerCounts` map built by iterating over the votes in order. -/
def countAnswers (votes : List String) : List (String × Nat) :=
  votes.foldl mapInc []

/-- The `for (const [cellId, count] of answerCounts.entries())` loop of
`checkGroupConsensus`: keep the entry whose count strictly exceeds the best
so far, starting from `('', 0)`. -/
def pickMostCommon (counts : List (String × Nat)) : String × Nat :=
  counts.foldl (fun acc e => if e.2 > acc.2 then e else acc) ("", 0)

/-- Consensus computed by `checkGroupConsensus` as a function of the
`cellId`s of the group's stored answers in arrival order; `none` models the
early return on an empty list and the falsy test `if (mostCommonAnswer)`. -/
def checkGroupConsensusResult (votes : List String) : Option String :=
  if votes.isEmpty then none
  else
    let w := (pickMostCommon (countAnswers votes)).1
    if w = "" then none else some w

/-- One iteration of the tally loop in `handleRevealAnswer`; the state is
(`answerCounts`, `mostCommonAnswer`, `highestCount`) and the vote is counted
first, then compared against the best count so far. -/
def revealStep (st : List (String × Nat) × String × Nat) (cid : String) :
    List (String × Nat) × String × Nat :=
  let count := (lookupA st.1 cid).getD 0
  let counts := mapInc st.1 cid
  if count + 1 > st.2.2 then (counts, cid, count + 1) else (counts, st.2.1, st.2.2)

/-- Consensus computed by the reveal-time tally in `handleRevealAnswer`,
over the in-memory vote map's values in insertion order; `none` models the
falsy test `if (mostCommonAnswer)`. -/
def revealConsensusResult (votes : List String) : Option String :=
  let w := (votes.foldl revealStep ([], "", 0)).2.1
  if w = "" then none else some w

/-- Arrival index of the first vote for a choice (the list's length when
the choice never occurs). -/
def firstIdx (votes : List String) (c : String) : Nat :=
  match votes with
  | [] => 0
  | v :: t => if v = c then 0 else firstIdx t c + 1

/-- Greatest count appearing in a counting map (0 for the empty map). -/
def maxVal (l : List (String × Nat)) : Nat :=
  l.foldr (fun e m => max e.2 m) 0

end Bingo

namespace Bingo

/-! ### Data model: the in-memory `Game` object `MemStorage` keeps -/

/-- One entry of the game's `questions` array. -/
structure QuestionRow where
  id : String
  question : String
  answer : String
  used : Bool
deriving Repr, DecidableEq

/-- One entry of a group's `players` array. -/
structure PlayerRow where
  id : String
  name : String
deriving Repr, DecidableEq

/-- One cell of a group's `board` array. -/
structure BoardCellRow where
  position : String
  content : String
  answer : String
  correct : Bool
deriving Repr, DecidableEq

/-- One entry of the game's `groups` array (`bingoPattern` is absent until
`setGroupBingo` sets it). -/
structure GroupRow where
  id : String
  name : String
  players : List PlayerRow
  board : List BoardCellRow
  hasBingo : Bool
  bingoPattern : Option (List String)
deriving Repr, DecidableEq

/-- Game lifecycle status. -/
inductive GameStatus where
  | waiting
  | active
  | completed
deriving Repr, DecidableEq

/-- The game object's flat fields (creator and timestamps are not relevant
to the claims). -/
structure GameRow where
  id : String
  name : String
  boardSize : Nat
  cellSize : String
  answerTime : Nat
  groupCount : Nat
  status : GameStatus
deriving Repr, DecidableEq

/-- One entry of a `MemStorage.playerAnswers` map value (the `timestamp`
is not relevant to the claims); `questionId` is the question-id component
of the entry's `gameId:questionId` map key. -/
structure PlayerAnswerRow where
  questionId : String
  playerId : String
  groupId : String
  cellId : String
  position : String
deriving Repr, DecidableEq

/-- The `currentQuestion` object returned by `getNextQuestion` and stored
on the game by `updateCurrentQuestion`. -/
structure CurrentQuestion where
  id : String
  question : String
  timeLimit : Nat
deriving Repr, DecidableEq

/-- The bound storage (`export const storage = new MemStorage()`),
restricted to one game: the stored `Game` object — its flat fields, its
`questions` and `groups` arrays and its `currentQuestion` field — plus the
game's `playerAnswers` map entries, flattened with each entry's
question-id key component on the row. -/
structure StorageState where
  game : GameRow
  questions : List QuestionRow
  groups : List GroupRow
  currentQuestion : Option CurrentQuestion
  playerAnswers : List PlayerAnswerRow
deriving Repr, DecidableEq

/-- `game.currentQuestion`: `MemStorage` keeps the current question as an
explicit field of the game object, set by `updateCurrentQuestion`. -/
def currentQuestionOf (s : StorageState) : Option CurrentQuestion :=
  s.currentQuestion

/-- The game object assembled by `storage.getGame`. -/
structure GameView where
  id : String
  name : String
  boardSize : Nat
  cellSize : String
  answerTime : Nat
  groupCount : Nat
  status : GameStatus
  questions : List QuestionRow
  groups : List GroupRow
  currentQuestion : Option CurrentQuestion
deriving Repr, DecidableEq

/-- `storage.getGame` (the single game of the model always exists). -/
def getGame (s : StorageState) : GameView :=
  ⟨s.game.id, s.game.name, s.game.boardSize, s.game.cellSize, s.game.answerTime,
   s.game.groupCount, s.game.status, s.questions, s.groups, currentQuestionOf s⟩

/-- `storage.updateGameStatus`: sets the game's status. -/
def updateGameStatus (s : StorageState) (status : GameStatus) : StorageState :=
  { s with game := { s.game with status := status } }

/-- `getNextQuestion` marks the question object its `find` returned — the
first unused one — as used, in place. -/
def markFirstUnused : List QuestionRow → List QuestionRow
  | [] => []
  | q :: rest =>
    if q.used then q :: markFirstUnused rest else { q with used := true } :: rest

/-- `storage.getNextQuestion`: the first unused question is marked used and
returned with the game's `answerTime` as its time limit; `null` when every
question is used. -/
def getNextQuestion (s : StorageState) : Option CurrentQuestion × StorageState :=
  match s.questions.find? fun q => !q.used with
  | none => (none, s)
  | some q => (some ⟨q.id, q.question, s.game.answerTime⟩,
      { s with questions := markFirstUnused s.questions })

/-- `storage.updateCurrentQuestion`: stores the fetched question as the
game's `currentQuestion`. -/
def updateCurrentQuestion (s : StorageState) (q : CurrentQuestion) : StorageState :=
  { s with currentQuestion := some q }

/-- JavaScript `cellId.split('-')` (structural recursion, so that concrete
states evaluate in the kernel): split at every dash, empty pieces
included. -/
def splitDashAux : List Char → List Char → List String
  | [], acc => [String.mk acc.reverse]
  | c :: rest, acc =>
    if c = '-' then String.mk acc.reverse :: splitDashAux rest []
    else splitDashAux rest (c :: acc)

/-- `cellId.split('-')`. -/
def jsSplitDash (s : String) : List String := splitDashAux s.data []

/-- Update, in place, the first stored answer row of the player for the
question (the row the storage's select returns first). -/
def updateAnswerRow (rows : List PlayerAnswerRow) (qid pid gid cid pos : String) :
    List PlayerAnswerRow :=
  match rows with
  | [] => []
  | a :: rest =>
    if a.questionId = qid ∧ a.playerId = pid then
      { a with groupId := gid, cellId := cid, position := pos } :: rest
    else a :: updateAnswerRow rest qid pid gid cid pos

/-- The question-id component of the `playerAnswers` map key
(`gameId:${game.currentQuestion?.id}`): the interpolation of an undefined
`currentQuestion` produces the literal string `"undefined"`. -/
def answerKeyQid (s : StorageState) : String :=
  match s.currentQuestion with
  | none => "undefined"
  | some cq => cq.id

/-- `storage.recordPlayerAnswer`: validates that the group exists and that
the player belongs to it, validates the `cellId` format (`split('-')` must
give exactly two parts), and then updates the player's existing answer
entry under the current question's key in place, or appends a new one. -/
def recordPlayerAnswer (s : StorageState) (playerId groupId cellId : String) :
    Except String StorageState :=
  match s.groups.find? fun g => decide (g.id = groupId) with
  | none => Except.error "Group not found"
  | some group =>
    if group.players.any fun p => decide (p.id = playerId) then
      match jsSplitDash cellId with
      | [_, position] =>
        if s.playerAnswers.any fun a =>
            decide (a.questionId = answerKeyQid s ∧ a.playerId = playerId) then
          Except.ok { s with playerAnswers :=
              (updateAnswerRow s.playerAnswers (answerKeyQid s) playerId groupId
                cellId position) }
        else
          Except.ok { s with playerAnswers :=
              (s.playerAnswers ++ [⟨answerKeyQid s, playerId, groupId, cellId, position⟩]) }
      | _ => Except.error "Invalid cell ID format"
    else Except.error "Player not found in group"

/-- `storage.getGroupAnswers`: the stored answers of the group under the
current question's key (empty when no current question is set). -/
def getGroupAnswers (s : StorageState) (groupId : String) : List PlayerAnswerRow :=
  match s.currentQuestion with
  | none => []
  | some cq => s.playerAnswers.filter fun a =>
      decide (a.questionId = cq.id ∧ a.groupId = groupId)

/-- `setGroupAnswer` mutates the cell object its `find` returned — the
first one of the board at the position — in place. -/
def setCellCorrect : List BoardCellRow → String → Bool → List BoardCellRow
  | [], _, _ => []
  | c :: rest, pos, b =>
    if c.position = pos then { c with correct := b } :: rest
    else c :: setCellCorrect rest pos b

/-- Apply `setCellCorrect` to the board of the group `find` returned — the
first one with the id — in place. -/
def setGroupCellCorrect : List GroupRow → String → String → Bool → List GroupRow
  | [], _, _, _ => []
  | g :: rest, gid, pos, b =>
    if g.id = gid then { g with board := setCellCorrect g.board pos b } :: rest
    else g :: setGroupCellCorrect rest gid pos b

/-- `storage.setGroupAnswer`: requires a current question; finds the
group, validates the `cellId` format, locates the group's cell at the
encoded position and the question row carrying the current question's id,
compares the cell's paired answer text with that question's text, and sets
the found cell's `correct` flag accordingly. -/
def setGroupAnswer (s : StorageState) (groupId cellId : String) :
    Except String StorageState :=
  match s.currentQuestion with
  | none => Except.error "Game not found or no current question"
  | some cq =>
    match s.groups.find? fun g => decide (g.id = groupId) with
    | none => Except.error "Group not found"
    | some group =>
      match jsSplitDash cellId with
      | [_, position] =>
        match group.board.find? fun c => decide (c.position = position) with
        | none => Except.error "Cell not found"
        | some cell =>
          match s.questions.find? fun q => decide (q.id = cq.id) with
          | none => Except.error "Question not found"
          | some question =>
            let isCorrect := cell.answer = question.question
            Except.ok { s with groups :=
              (setGroupCellCorrect s.groups groupId position isCorrect) }
      | _ => Except.error "Invalid cell ID format"

/-- `storage.getGroupCorrectAnswers`: the found group's cells currently
marked correct (the source projects position and content; the full rows
are kept here and the callers project); an unknown group throws. -/
def getGroupCorrectAnswers (s : StorageState) (groupId : String) :
    Except String (List BoardCellRow) :=
  match s.groups.find? fun g => decide (g.id = groupId) with
  | none => Except.error "Group not found"
  | some group => Except.ok (group.board.filter fun c => c.correct)

/-- `setGroupBingo` mutates the group object its `find` returned — the
first one with the id — in place. -/
def setBingoOn : List GroupRow → String → List String → List GroupRow
  | [], _, _ => []
  | g :: rest, gid, pat =>
    if g.id = gid then { g with hasBingo := true, bingoPattern := some pat } :: rest
    else g :: setBingoOn rest gid pat

/-- `storage.setGroupBingo`: finds the group, sets its `hasBingo` to true
and stores the pattern; an unknown group throws. -/
def setGroupBingo (s : StorageState) (groupId : String) (pattern : List String) :
    Except String StorageState :=
  if s.groups.any fun g => decide (g.id = groupId) then
    Except.ok { s with groups := setBingoOn s.groups groupId pattern }
  else Except.error "Group not found"

/-! ### Outbound messages and the connection registry -/

/-- The host's role-scoped `game_update` payload. -/
structure HostGameView where
  id : String
  name : String
  status : GameStatus
  boardSize : Nat
  cellSize : String
  answerTime : Nat
  groupCount : Nat
  currentQuestion : Option CurrentQuestion
  groups : List GroupRow
deriving Repr, DecidableEq

/-- A player's role-scoped `game_update` payload: only their own group. -/
structure PlayerGameView where
  id : String
  name : String
  status : GameStatus
  boardSize : Nat
  cellSize : String
  currentQuestion : Option CurrentQuestion
  currentGroup : GroupRow
deriving Repr, DecidableEq

/-- One entry of the `options` array of a `player_vote` message. -/
structure AnswerChoice where
  id : String
  position : String
  content : String
  votes : Nat
  voters : List String
deriving Repr, DecidableEq

/-- Outbound wire messages. -/
inductive OutMsg where
  | gameUpdateHost (v : HostGameView)
  | gameUpdatePlayer (v : PlayerGameView)
  | gameOver (message : String)
  | bingoAchieved (groupId groupName : String) (members : List PlayerRow)
      (pattern : List String) (boardSize : Nat)
  | hostSelectedMsg (cellId position : String) (timeLimit : Nat) (content : String)
      (question : Option CurrentQuestion)
  | playerVote (playerId cellId : String) (voteChoices : List AnswerChoice)
  | playerVoteHost (groupId playerId cellId : String) (voteChoices : List AnswerChoice)
  | errorMsg (message : String)
deriving Repr, DecidableEq

/-- `connections.get(pid)`: whether the participant's socket is registered,
and if so whether it is OPEN. -/
def connFor (conns : List (String × Bool)) (pid : String) : Option Bool :=
  lookupA conns pid

/-- Send to every OPEN connection of the game, in registration order. -/
def broadcastAll (conns : List (String × Bool)) (m : OutMsg) : List (String × OutMsg) :=
  conns.flatMap fun c => if c.2 then [(c.1, m)] else []

/-- `game.groups.find(...)`: the first group containing the player. -/
def findPlayerGroup (groups : List GroupRow) (playerId : String) : Option GroupRow :=
  groups.find? fun g => g.players.any fun p => decide (p.id = playerId)

/-- The host's `game_update` payload built by `sendGameUpdate`. -/
def hostViewOf (gv : GameView) : HostGameView :=
  ⟨gv.id, gv.name, gv.status, gv.boardSize, gv.cellSize, gv.answerTime,
   gv.groupCount, gv.currentQuestion, gv.groups⟩

/-- The player's `game_update` payload built by `sendGameUpdate`: their own
group plus the current question; `none` when the player belongs to no group
(then no message is sent to them). -/
def playerViewOf (gv : GameView) (playerId : String) : Option PlayerGameView :=
  (findPlayerGroup gv.groups playerId).map fun grp =>
    ⟨gv.id, gv.name, gv.status, gv.boardSize, gv.cellSize, gv.currentQuestion, grp⟩

/-- The messages `sendGameUpdate` sends: the host first (if its socket is
open), then each open player connection whose player belongs to a group. -/
def sendGameUpdateMsgs (conns : List (String × Bool)) (gv : GameView) :
    List (String × OutMsg) :=
  (match connFor conns "host" with
   | some true => [("host", OutMsg.gameUpdateHost (hostViewOf gv))]
   | _ => []) ++
  conns.flatMap fun c =>
    if c.1 = "host" ∨ c.2 = false then []
    else match playerViewOf gv c.1 with
      | some v => [(c.1, OutMsg.gameUpdatePlayer v)]
      | none => []

/-! ### Coordinator state, fault schedule, and the event handlers -/

/-- Coordinator state: the storage state, the in-memory `gameAnswers` map
of the game (groupId to an insertion-ordered playerId-to-cellId map), and
the game's connections. -/
structure CoordState where
  store : StorageState
  gameAnswers : List (String × List (String × String))
  conns : List (String × Bool)
deriving Repr, DecidableEq

/-- One Boolean per storage call: `true` makes that call throw
(`StorageFailure`); an exhausted schedule means no further faults. -/
def takeFault : List Bool → Bool × List Bool
  | [] => (false, [])
  | b :: r => (b, r)

/-- Result of a handler body: `err` models a JavaScript exception escaping
the handler, carrying the state and messages produced before the throw. -/
inductive HRes where
  | ok (s : CoordState) (out : List (String × OutMsg)) (sch : List Bool)
  | err (s : CoordState) (out : List (String × OutMsg)) (sch : List Bool)
deriving Repr, DecidableEq

/-- JavaScript `Map.set` on an insertion-ordered association list:
overwrite in place, or append a new key at the end. -/
def jsMapSet {α : Type} (m : List (String × α)) (k : String) (v : α) :
    List (String × α) :=
  match m with
  | [] => [(k, v)]
  | e :: r => if e.1 = k then (k, v) :: r else e :: jsMapSet r k v

/-- Record the player's in-flight vote
(`gameAnswers.get(gameId).get(groupId).set(playerId, cellId)` in
`handlePlayerAnswer`), creating the group's map when missing. -/
def setVote (ga : List (String × List (String × String))) (gid pid cid : String) :
    List (String × List (String × String)) :=
  if ga.any fun e => decide (e.1 = gid) then
    ga.map fun e => if e.1 = gid then (e.1, jsMapSet e.2 pid cid) else e
  else ga ++ [(gid, jsMapSet [] pid cid)]

/-- Reset the groups' in-flight vote maps (`handleHostSelection`): clear an
existing group entry in place, create an empty one otherwise. -/
def resetGroupVotes (ga : List (String × List (String × String)))
    (groups : List GroupRow) : List (String × List (String × String)) :=
  groups.foldl
    (fun acc g =>
      if acc.any fun e => decide (e.1 = g.id) then
        acc.map fun e => if e.1 = g.id then (e.1, []) else e
      else acc ++ [(g.id, [])])
    ga

/-- `sendGameUpdate` as a step: one storage call (`getGame`); its own
try/catch logs and swallows a failure, sending nothing. -/
def sendGameUpdateStep (s : CoordState) (sch : List Bool) :
    List (String × OutMsg) × List Bool :=
  let f := takeFault sch
  if f.1 then ([], f.2)
  else (sendGameUpdateMsgs s.conns (getGame s.store), f.2)

/-- `handleStartGame`: requires `waiting`, sets `active`, broadcasts the
updated view; storage failures and precondition violations rethrow. -/
def handleStartGame (s : CoordState) (sch : List Bool) : HRes :=
  let f := takeFault sch
  if f.1 then HRes.err s [] f.2
  else
    let gv := getGame s.store
    if gv.status ≠ GameStatus.waiting then HRes.err s [] f.2
    else
      let f2 := takeFault f.2
      if f2.1 then HRes.err s [] f2.2
      else
        let s1 : CoordState := { s with store := updateGameStatus s.store GameStatus.active }
        let r := sendGameUpdateStep s1 f2.2
        HRes.ok s1 r.1 r.2

/-- `handleEndGame`: requires `active`, sets `completed`, broadcasts the
updated view and a `game_over` message to every open connection. -/
def handleEndGame (s : CoordState) (sch : List Bool) : HRes :=
  let f := takeFault sch
  if f.1 then HRes.err s [] f.2
  else
    let gv := getGame s.store
    if gv.status ≠ GameStatus.active then HRes.err s [] f.2
    else
      let f2 := takeFault f.2
      if f2.1 then HRes.err s [] f2.2
      else
        let s1 : CoordState := { s with store := updateGameStatus s.store GameStatus.completed }
        let r := sendGameUpdateStep s1 f2.2
        HRes.ok s1 (r.1 ++ broadcastAll s1.conns (OutMsg.gameOver "The game has ended")) r.2

/-- `handleNextQuestion`: requires `active`; fetches the next unused
question; when there is none, completes the game and broadcasts the view
and a `game_over`; otherwise stores the fetched question as current and
broadcasts the view. -/
def handleNextQuestion (s : CoordState) (sch : List Bool) : HRes :=
  let f := takeFault sch
  if f.1 then HRes.err s [] f.2
  else
    let gv := getGame s.store
    if gv.status ≠ GameStatus.active then HRes.err s [] f.2
    else
      let f2 := takeFault f.2
      if f2.1 then HRes.err s [] f2.2
      else
        match getNextQuestion s.store with
        | (none, _) =>
          let f3 := takeFault f2.2
          if f3.1 then HRes.err s [] f3.2
          else
            let s1 : CoordState := { s with store := updateGameStatus s.store GameStatus.completed }
            let r := sendGameUpdateStep s1 f3.2
            HRes.ok s1
              (r.1 ++ broadcastAll s1.conns (OutMsg.gameOver "All questions have been answered")) r.2
        | (some q, store1) =>
          let s1 : CoordState := { s with store := store1 }
          let f3 := takeFault f2.2
          if f3.1 then HRes.err s1 [] f3.2
          else
            let s2 : CoordState := { s1 with store := updateCurrentQuestion s1.store q }
            let r := sendGameUpdateStep s2 f3.2
            HRes.ok s2 r.1 r.2

/-- `checkGroupConsensus`: recompute the group's consensus from the stored
answers, set the group answer, and run bingo detection over the group's
correct cells; its own try/catch swallows every failure (nothing is
rethrown and no `error` is sent). -/
def checkGroupConsensus (s : CoordState) (groupId : String) (sch : List Bool) :
    CoordState × List (String × OutMsg) × List Bool :=
  let f := takeFault sch
  if f.1 then (s, [], f.2)
  else
    let gv := getGame s.store
    match gv.groups.find? fun g => decide (g.id = groupId) with
    | none => (s, [], f.2)
    | some group =>
      let f2 := takeFault f.2
      if f2.1 then (s, [], f2.2)
      else
        let playerAnswers := getGroupAnswers s.store groupId
        if playerAnswers.isEmpty then (s, [], f2.2)
        else
          match checkGroupConsensusResult (playerAnswers.map fun a => a.cellId) with
          | none => (s, [], f2.2)
          | some mostCommonAnswer =>
            let f3 := takeFault f2.2
            if f3.1 then (s, [], f3.2)
            else
              match setGroupAnswer s.store groupId mostCommonAnswer with
              | Except.error _ => (s, [], f3.2)
              | Except.ok store1 =>
                let s1 : CoordState := { s with store := store1 }
                let f4 := takeFault f3.2
                if f4.1 then (s1, [], f4.2)
                else
                  match getGroupCorrectAnswers s1.store groupId with
                  | Except.error _ => (s1, [], f4.2)
                  | Except.ok correctAnswers =>
                    if gv.boardSize ≤ correctAnswers.length then
                      match checkBingoPattern (correctAnswers.map fun c => c.position)
                          gv.boardSize with
                      | some bingoPattern =>
                        let f5 := takeFault f4.2
                        if f5.1 then (s1, [], f5.2)
                        else
                          match setGroupBingo s1.store groupId bingoPattern with
                          | Except.error _ => (s1, [], f5.2)
                          | Except.ok store2 =>
                            let s2 : CoordState := { s1 with store := store2 }
                            (s2, broadcastAll s2.conns
                              (OutMsg.bingoAchieved groupId group.name group.players
                                bingoPattern gv.boardSize), f5.2)
                      | none => (s1, [], f4.2)
                    else (s1, [], f4.2)

/-- `handleSelectAnswer`: validates inputs (falsy `playerId`/`cellId`
throw), requires `active` and a group containing the player, records the
vote in storage, recomputes consensus, and broadcasts the view; failures up
to `recordPlayerAnswer` rethrow to the message handler. -/
def handleSelectAnswer (s : CoordState) (playerId cellId : String) (sch : List Bool) :
    HRes :=
  if playerId = "" ∨ cellId = "" then HRes.err s [] sch
  else
    let f := takeFault sch
    if f.1 then HRes.err s [] f.2
    else
      let gv := getGame s.store
      if gv.status ≠ GameStatus.active then HRes.err s [] f.2
      else
        match findPlayerGroup gv.groups playerId with
        | none => HRes.err s [] f.2
        | some playerGroup =>
          let f2 := takeFault f.2
          if f2.1 then HRes.err s [] f2.2
          else
            match recordPlayerAnswer s.store playerId playerGroup.id cellId with
            | Except.error _ => HRes.err s [] f2.2
            | Except.ok store1 =>
              let s1 : CoordState := { s with store := store1 }
              let r := checkGroupConsensus s1 playerGroup.id f2.2
              let r2 := sendGameUpdateStep r.1 r.2.2
              HRes.ok r.1 (r.2.1 ++ r2.1) r2.2

/-- `handleHostSelection`: requires `active`, resets the groups' in-flight
vote maps, and tells every open player connection that the position is in
play (with that player's own cell content); the `setTimeout` that later
fires the automatic reveal is an external timer, modelled as a separate
`reveal_answer` event; the handler's try/catch swallows failures. -/
def handleHostSelection (s : CoordState) (cellId position : String) (timeLimit : Nat)
    (sch : List Bool) : CoordState × List (String × OutMsg) × List Bool :=
  let f := takeFault sch
  if f.1 then (s, [], f.2)
  else
    let gv := getGame s.store
    if gv.status ≠ GameStatus.active then (s, [], f.2)
    else
      let currentQuestion := gv.currentQuestion
      let s1 : CoordState := { s with gameAnswers := resetGroupVotes s.gameAnswers gv.groups }
      let msgs := s1.conns.flatMap fun c =>
        if c.2 = true ∧ c.1 ≠ "host" then
          let playerCell := (findPlayerGroup gv.groups c.1).bind fun grp =>
            grp.board.find? fun cell => decide (cell.position = position)
          [(c.1, OutMsg.hostSelectedMsg cellId position timeLimit
            (match playerCell with | some cell => cell.content | none => "")
            currentQuestion)]
        else []
      (s1, msgs, f.2)

/-- Voters for a choice, in the vote map's insertion order (the `voterMap`
of `handlePlayerAnswer`). -/
def votersFor (m : List (String × String)) (cid : String) : List String :=
  (m.filter fun e => decide (e.2 = cid)).map fun e => e.1

/-- `handlePlayerAnswer` (event `answer_select`): records the in-flight
vote in memory, then sends live per-choice counts and voter identities
(`player_vote`) to the group's open players and to the host; the option
content is looked up by board position across all groups, as in the source;
the handler's try/catch swallows failures. -/
def handlePlayerAnswer (s : CoordState) (playerId cellId position : String)
    (sch : List Bool) : CoordState × List (String × OutMsg) × List Bool :=
  let f := takeFault sch
  if f.1 then (s, [], f.2)
  else
    let gv := getGame s.store
    if gv.status ≠ GameStatus.active then (s, [], f.2)
    else
      match findPlayerGroup gv.groups playerId with
      | none => (s, [], f.2)
      | some playerGroup =>
        let s1 : CoordState :=
          { s with gameAnswers := setVote s.gameAnswers playerGroup.id playerId cellId }
        let groupAnswers := (lookupA s1.gameAnswers playerGroup.id).getD []
        let voteChoices := (countAnswers (groupAnswers.map fun e => e.2)).map fun e =>
          let cell := (gv.groups.flatMap fun g => g.board).find? fun c =>
            decide (c.position = position)
          AnswerChoice.mk e.1 position
            (match cell with | some c => c.content | none => "") e.2
            (votersFor groupAnswers e.1)
        let playerMsgs := playerGroup.players.flatMap fun p =>
          match connFor s1.conns p.id with
          | some true => [(p.id, OutMsg.playerVote playerId cellId voteChoices)]
          | _ => []
        let hostMsgs := match connFor s1.conns "host" with
          | some true =>
            [("host", OutMsg.playerVoteHost playerGroup.id playerId cellId voteChoices)]
          | _ => []
        (s1, playerMsgs ++ hostMsgs, f.2)

/-- One pass over the groups inside `handleRevealAnswer`: consensus over
the in-memory votes, persistence, bingo detection.  The Boolean result is
true when a storage failure threw, aborting the loop (the remaining groups,
the vote clearing and the broadcast are skipped). -/
def revealLoop (boardSize : Nat) (groups : List GroupRow) (s : CoordState)
    (out : List (String × OutMsg)) (sch : List Bool) :
    Bool × CoordState × List (String × OutMsg) × List Bool :=
  match groups with
  | [] => (false, s, out, sch)
  | g :: rest =>
    let groupAnswers := (lookupA s.gameAnswers g.id).getD []
    if groupAnswers.isEmpty then revealLoop boardSize rest s out sch
    else
      match revealConsensusResult (groupAnswers.map fun e => e.2) with
      | none => revealLoop boardSize rest s out sch
      | some mostCommonAnswer =>
        let f := takeFault sch
        if f.1 then (true, s, out, f.2)
        else
          match recordPlayerAnswer s.store "group" g.id mostCommonAnswer with
          | Except.error _ => (true, s, out, f.2)
          | Except.ok store1 =>
            let s1 : CoordState := { s with store := store1 }
            let f2 := takeFault f.2
            if f2.1 then (true, s1, out, f2.2)
            else
              match setGroupAnswer s1.store g.id mostCommonAnswer with
              | Except.error _ => (true, s1, out, f2.2)
              | Except.ok store2 =>
                let s2 : CoordState := { s1 with store := store2 }
                let f3 := takeFault f2.2
                if f3.1 then (true, s2, out, f3.2)
                else
                  match getGroupCorrectAnswers s2.store g.id with
                  | Except.error _ => (true, s2, out, f3.2)
                  | Except.ok correctAnswers =>
                    if boardSize ≤ correctAnswers.length then
                      match checkBingoPattern (correctAnswers.map fun c => c.position)
                          boardSize with
                      | some bingoPattern =>
                        let f4 := takeFault f3.2
                        if f4.1 then (true, s2, out, f4.2)
                        else
                          match setGroupBingo s2.store g.id bingoPattern with
                          | Except.error _ => (true, s2, out, f4.2)
                          | Except.ok store3 =>
                            let s3 : CoordState := { s2 with store := store3 }
                            revealLoop boardSize rest s3
                              (out ++ broadcastAll s3.conns
                                (OutMsg.bingoAchieved g.id g.name g.players
                                  bingoPattern boardSize))
                              f4.2
                      | none => revealLoop boardSize rest s2 out f3.2
                    else revealLoop boardSize rest s2 out f3.2

/-- `handleRevealAnswer`: requires `active`; processes every group's
in-memory votes, then clears the game's vote maps and broadcasts the
refreshed view; the surrounding try/catch swallows failures, so an abort
inside the loop also skips the clearing and the broadcast. -/
def handleRevealAnswer (s : CoordState) (sch : List Bool) :
    CoordState × List (String × OutMsg) × List Bool :=
  let f := takeFault sch
  if f.1 then (s, [], f.2)
  else
    let gv := getGame s.store
    if gv.status ≠ GameStatus.active then (s, [], f.2)
    else
      let r := revealLoop gv.boardSize gv.groups s [] f.2
      if r.1 then (r.2.1, r.2.2.1, r.2.2.2)
      else
        let s1 : CoordState := { r.2.1 with gameAnswers := [] }
        let r2 := sendGameUpdateStep s1 r.2.2.2
        (s1, r.2.2.1 ++ r2.1, r2.2)

/-- Inbound wire messages (the `type` discriminator with the fields each
handler reads). -/
inductive InEvent where
  | startGame
  | endGame
  | nextQuestion
  | selectAnswer (playerId cellId : String)
  | hostSelected (cellId position : String) (timeLimit : Nat)
  | revealAnswer (cellId position : String)
  | answerSelect (playerId cellId position : String)
  | unknownType (t : String)
deriving Repr, DecidableEq

/-- The `ws.on('message')` switch: rethrowing handlers produce `err`,
handlers with their own try/catch always produce `ok`, and an unknown type
only logs a warning. -/
def handleEvent (ev : InEvent) (s : CoordState) (sch : List Bool) : HRes :=
  match ev with
  | InEvent.startGame => handleStartGame s sch
  | InEvent.endGame => handleEndGame s sch
  | InEvent.nextQuestion => handleNextQuestion s sch
  | InEvent.selectAnswer pid cid => handleSelectAnswer s pid cid sch
  | InEvent.hostSelected cid pos t =>
    let r := handleHostSelection s cid pos t sch
    HRes.ok r.1 r.2.1 r.2.2
  | InEvent.revealAnswer _ _ =>
    let r := handleRevealAnswer s sch
    HRes.ok r.1 r.2.1 r.2.2
  | InEvent.answerSelect pid cid pos =>
    let r := handlePlayerAnswer s pid cid pos sch
    HRes.ok r.1 r.2.1 r.2.2
  | InEvent.unknownType _ => HRes.ok s [] sch

/-- Dispatch of one inbound message from `origin`: an exception escaping
the handler is caught by the message handler, which answers with an `error`
event on the originating socket only. -/
def dispatch (origin : String) (ev : InEvent) (s : CoordState) (sch : List Bool) :
    CoordState × List (String × OutMsg) × List Bool :=
  match handleEvent ev s sch with
  | HRes.ok s1 out sch1 => (s1, out, sch1)
  | HRes.err s1 out sch1 =>
    (s1, out ++ [(origin, OutMsg.errorMsg "Failed to process message")], sch1)

end Bingo

namespace Bingo

/-! ### Recognizers, relations and concrete states used by the claims -/

/-- Recognizer for `bingo_achieved` messages. -/
def isBingoAchieved : OutMsg → Bool
  | OutMsg.bingoAchieved _ _ _ _ _ => true
  | _ => false

/-- Recognizer for `error` messages. -/
def isErrorMsg : OutMsg → Bool
  | OutMsg.errorMsg _ => true
  | _ => false

/-- State carried by a handler result, whether it returned or threw. -/
def hresState : HRes → CoordState
  | HRes.ok s _ _ => s
  | HRes.err s _ _ => s

/-- Once-true-stays-true relation on group lists, position by position. -/
def bingoLe (gs1 gs2 : List GroupRow) : Prop :=
  List.Forall₂ (fun g1 g2 => g1.hasBingo = true → g2.hasBingo = true) gs1 gs2

/-- At most one stored answer row per (question, player) pair. -/
def answersKeyUnique (rows : List PlayerAnswerRow) : Prop :=
  List.Pairwise (fun a b => ¬(a.questionId = b.questionId ∧ a.playerId = b.playerId)) rows

/-- A 1×1 game whose single group already has bingo, its only cell already
marked correct, and one used question stored as current. -/
def exBingoState : CoordState :=
  { store :=
      { game := ⟨"g", "G", 1, "medium", 30, 1, GameStatus.active⟩
        questions := [⟨"q1", "Q1", "A1c", true⟩]
        groups := [⟨"g1", "Group 1", [⟨"p1", "P"⟩],
          [⟨"A1", "A1c", "Q1", true⟩], true, some ["A1"]⟩]
        currentQuestion := some ⟨"q1", "Q1", 30⟩
        playerAnswers := [] }
    gameAnswers := []
    conns := [("host", true), ("p1", true)] }

/-- An active game whose first question (`"b"`) has been played — it is
used and stored as current — with one unused question (`"a"`) left. -/
def exTwoQuestionState : CoordState :=
  { store :=
      { game := ⟨"g", "G", 3, "medium", 30, 1, GameStatus.active⟩
        questions := [⟨"b", "Qb", "Ab", true⟩, ⟨"a", "Qa", "Aa", false⟩]
        groups := []
        currentQuestion := some ⟨"b", "Qb", 30⟩
        playerAnswers := [] }
    gameAnswers := []
    conns := [("host", true)] }

/-- The same game with every question used. -/
def exExhaustedState : CoordState :=
  { exTwoQuestionState with store :=
      { exTwoQuestionState.store with questions := [⟨"b", "Qb", "Ab", true⟩] } }

/-- A storage state with one used question stored as current and one
stored answer of `p1` for it (an earlier vote for `cell-A2`). -/
def exVoteStore : StorageState :=
  { game := ⟨"g", "G", 3, "medium", 30, 1, GameStatus.active⟩
    questions := [⟨"q1", "Q1", "A1c", true⟩]
    groups := [⟨"g1", "Group 1", [⟨"p1", "P"⟩],
      [⟨"A1", "A1c", "Q1", false⟩], false, none⟩]
    currentQuestion := some ⟨"q1", "Q1", 30⟩
    playerAnswers := [⟨"q1", "p1", "g1", "cell-A2", "A2"⟩] }

/-- `exVoteStore` after `p1` re-votes for `cell-A1`: the single row is
superseded in place. -/
def exVoteStoreAfter : StorageState :=
  { exVoteStore with playerAnswers := [⟨"q1", "p1", "g1", "cell-A1", "A1"⟩] }

/-- A two-group game view. -/
def exView1 : GameView :=
  ⟨"g", "G", 1, "medium", 30, 2, GameStatus.active, [],
   [⟨"g1", "Group 1", [⟨"p1", "P1"⟩], [⟨"A1", "x", "q", false⟩], false, none⟩,
    ⟨"g2", "Group 2", [⟨"p2", "P2"⟩], [⟨"A1", "y", "q", false⟩], false, none⟩],
   none⟩

/-- `exView1` with the other group's board changed (its cell marked
correct): `p1`'s `game_update` payload must not change. -/
def exView2 : GameView :=
  ⟨"g", "G", 1, "medium", 30, 2, GameStatus.active, [],
   [⟨"g1", "Group 1", [⟨"p1", "P1"⟩], [⟨"A1", "x", "q", false⟩], false, none⟩,
    ⟨"g2", "Group 2", [⟨"p2", "P2"⟩], [⟨"A1", "y", "q", true⟩], true, some ["A1"]⟩],
   none⟩

end Bingo

namespace Bingo

/-! ## DEFS-END -/

/-! ### Lemmas about the board geometry -/

theorem any_filter (l : List String) (q p : String → Bool) :
    (l.filter q).any p = l.any fun a => q a && p a := by
  induction l with
  | nil => rfl
  | cons a t ih =>
    by_cases h : q a <;> simp [List.filter_cons, h, ih]

theorem markedCell_filter (ps : List String) (N r c : Nat) :
    markedCell (ps.filter (inRangePos N)) N r c = markedCell ps N r c := by
  unfold markedCell
  rw [any_filter]
  congr 1
  funext pos
  cases hp : posRowCol pos with
  | none => simp [inRangePos, hp]
  | some rc =>
    simp only [inRangePos, hp]
    by_cases hin : 0 ≤ rc.1 ∧ rc.1 < (N : Int) ∧ 0 ≤ rc.2 ∧ rc.2 < (N : Int)
    · simp [hin]
    · have hbig : ¬(0 ≤ rc.1 ∧ rc.1 < (N : Int) ∧ 0 ≤ rc.2 ∧ rc.2 < (N : Int) ∧
          rc.1 = (r : Int) ∧ rc.2 = (c : Int)) := by
        intro h
        exact hin ⟨h.1, h.2.1, h.2.2.1, h.2.2.2.1⟩
      simp [hin, hbig]

theorem all_map' {α β : Type} (l : List α) (f : α → β) (p : β → Bool) :
    (l.map f).all p = l.all fun a => p (f a) := by
  induction l with
  | nil => rfl
  | cons a t ih => simp [ih]

theorem markedCell_iff (ps : List String) (N r c : Nat) :
    markedCell ps N r c = true ↔ (r, c) ∈ markedCells ps N := by
  unfold markedCell markedCells
  rw [List.any_eq_true, List.mem_toFinset, List.mem_filterMap]
  constructor
  · rintro ⟨pos, hpos, hp⟩
    refine ⟨pos, hpos, ?_⟩
    cases hpc : posRowCol pos with
    | none =>
      rw [hpc] at hp
      cases hp
    | some rc =>
      rw [hpc] at hp
      obtain ⟨h1, h2, h3, h4, h5, h6⟩ := of_decide_eq_true hp
      show (if 0 ≤ rc.1 ∧ rc.1 < (N : Int) ∧ 0 ≤ rc.2 ∧ rc.2 < (N : Int) then
        some (rc.1.toNat, rc.2.toNat) else none) = some (r, c)
      rw [if_pos ⟨h1, h2, h3, h4⟩]
      have hr : rc.1.toNat = r := by omega
      have hc : rc.2.toNat = c := by omega
      rw [hr, hc]
  · rintro ⟨pos, hpos, hsome⟩
    refine ⟨pos, hpos, ?_⟩
    cases hpc : posRowCol pos with
    | none =>
      rw [hpc] at hsome
      cases hsome
    | some rc =>
      rw [hpc] at hsome
      have hsome' : (if 0 ≤ rc.1 ∧ rc.1 < (N : Int) ∧ 0 ≤ rc.2 ∧ rc.2 < (N : Int) then
          some (rc.1.toNat, rc.2.toNat) else none) = some (r, c) := hsome
      by_cases hin : 0 ≤ rc.1 ∧ rc.1 < (N : Int) ∧ 0 ≤ rc.2 ∧ rc.2 < (N : Int)
      · rw [if_pos hin] at hsome'
        have hr : rc.1.toNat = r := congrArg Prod.fst (Option.some.inj hsome')
        have hc : rc.2.toNat = c := congrArg Prod.snd (Option.some.inj hsome')
        show decide (0 ≤ rc.1 ∧ rc.1 < (N : Int) ∧ 0 ≤ rc.2 ∧ rc.2 < (N : Int) ∧
          rc.1 = (r : Int) ∧ rc.2 = (c : Int)) = true
        apply decide_eq_true
        refine ⟨hin.1, hin.2.1, hin.2.2.1, hin.2.2.2, ?_, ?_⟩ <;> omega
      · rw [if_neg hin] at hsome'
        cases hsome'

theorem specLines_shape (N : Nat) (line : List (Nat × Nat)) (h : line ∈ specLines N) :
    line.length = N ∧ line.Nodup := by
  unfold specLines at h
  simp only [List.mem_append, List.mem_map, List.mem_cons, List.mem_singleton,
    List.not_mem_nil, or_false] at h
  rcases h with (⟨i, _, rfl⟩ | ⟨j, _, rfl⟩) | h | h
  · refine ⟨by simp [rowCells], ?_⟩
    exact (List.nodup_range N).map fun a b hab => by
      simpa using congrArg Prod.snd hab
  · refine ⟨by simp [colCells], ?_⟩
    exact (List.nodup_range N).map fun a b hab => by
      simpa using congrArg Prod.fst hab
  · subst h
    refine ⟨by simp [diagCells], ?_⟩
    exact (List.nodup_range N).map fun a b hab => by
      simpa using congrArg Prod.fst hab
  · subst h
    refine ⟨by simp [antiDiagCells], ?_⟩
    exact (List.nodup_range N).map fun a b hab => by
      simpa using congrArg Prod.fst hab

theorem card_ge_of_complete (ps : List String) (N : Nat) (line : List (Nat × Nat))
    (hlen : line.length = N) (hnd : line.Nodup)
    (hc : lineComplete ps N line = true) : N ≤ (markedCells ps N).card := by
  have hsub : line.toFinset ⊆ markedCells ps N := by
    intro x hx
    rw [List.mem_toFinset] at hx
    have hm := (List.all_eq_true.mp hc) x hx
    exact (markedCell_iff ps N x.1 x.2).mp hm
  calc N = line.length := hlen.symm
    _ = line.toFinset.card := (List.toFinset_card_of_nodup hnd).symm
    _ ≤ (markedCells ps N).card := Finset.card_le_card hsub

theorem checkBingo_eq_detect (ps : List String) (N : Nat) :
    checkBingoPattern ps N = detectWinPattern ps N := by
  have hrow : (lineComplete ps N ∘ rowCells N)
      = fun i => (List.range N).all fun j => markedCell ps N i j := by
    funext i
    simp [lineComplete, rowCells, all_map', Function.comp]
  have hcol : (lineComplete ps N ∘ colCells N)
      = fun j => (List.range N).all fun i => markedCell ps N i j := by
    funext j
    simp [lineComplete, colCells, all_map', Function.comp]
  have hdiag : lineComplete ps N (diagCells N)
      = (List.range N).all fun i => markedCell ps N i i := by
    simp [lineComplete, diagCells, all_map', Function.comp]
  have hanti : lineComplete ps N (antiDiagCells N)
      = (List.range N).all fun i => markedCell ps N i (N - 1 - i) := by
    simp [lineComplete, antiDiagCells, all_map', Function.comp]
  unfold detectWinPattern specLines checkBingoPattern
  rw [List.find?_append, List.find?_append, List.find?_map, List.find?_map, hrow, hcol]
  cases h1 : (List.range N).find? fun i => (List.range N).all fun j => markedCell ps N i j with
  | some i =>
    simp [rowCells, List.map_map, Function.comp]
  | none =>
    cases h2 : (List.range N).find? fun j => (List.range N).all fun i => markedCell ps N i j with
    | some j =>
      simp [colCells, List.map_map, Function.comp]
    | none =>
      by_cases hd : lineComplete ps N (diagCells N)
      · rw [List.find?_cons_of_pos _ hd]
        rw [hdiag] at hd
        simp [hd, diagCells, List.map_map, Function.comp]
      · rw [List.find?_cons_of_neg _ (by simpa using hd)]
        rw [hdiag] at hd
        by_cases ha : lineComplete ps N (antiDiagCells N)
        · rw [List.find?_cons_of_pos _ ha]
          rw [hanti] at ha
          simp [hd, ha, antiDiagCells, List.map_map, Function.comp]
        · rw [List.find?_cons_of_neg _ (by simpa using ha)]
          rw [hanti] at ha
          simp [hd, ha]

end Bingo

namespace Bingo

/-- Claim C5: `checkBingoPattern` checks rows top-to-bottom, then columns
left-to-right, then the two diagonals, returning the first complete line in
that order (it refines the spec-side `detectWinPattern`), and when fewer
than `boardSize` distinct in-range cells are marked it returns no pattern. -/
theorem claim5_win_detection_order (ps : List String) (N : Nat) :
    checkBingoPattern ps N = detectWinPattern ps N ∧
    ((markedCells ps N).card < N → checkBingoPattern ps N = none) := by
  refine ⟨checkBingo_eq_detect ps N, fun hcard => ?_⟩
  rw [checkBingo_eq_detect]
  unfold detectWinPattern
  cases hf : (specLines N).find? (lineComplete ps N) with
  | none => rfl
  | some line =>
    exfalso
    have hmem := List.mem_of_find?_eq_some hf
    have hcomp := List.find?_some hf
    obtain ⟨hlen, hnd⟩ := specLines_shape N line hmem
    have := card_ge_of_complete ps N line hlen hnd hcomp
    omega

/-- Witness for C5 at a concrete input: a single marked cell on a 2×2 board
is not a line. -/
theorem claim5_witness : checkBingoPattern ["A1"] 2 = none :=
  (claim5_win_detection_order ["A1"] 2).2 (by decide)

/-- Claim C10: `checkBingoPattern` is total, and malformed or out-of-range
position labels are silently ignored: deleting every position that does not
parse to an in-range cell leaves the result unchanged, so such positions
never contribute to a returned winning line. -/
theorem claim10_malformed_positions_ignored (ps : List String) (N : Nat) :
    checkBingoPattern (ps.filter (inRangePos N)) N = checkBingoPattern ps N := by
  unfold checkBingoPattern
  simp only [markedCell_filter]

end Bingo

namespace Bingo

/-! ### Lemmas about the vote tally -/

theorem lookupA_mapInc (m : List (String × Nat)) (k c : String) :
    lookupA (mapInc m k) c =
      if c = k then some ((lookupA m c).getD 0 + 1) else lookupA m c := by
  induction m with
  | nil =>
    by_cases h : c = k
    · subst h; simp [mapInc, lookupA]
    · have hkc : ¬ k = c := fun hh => h hh.symm
      simp [mapInc, lookupA, h, hkc]
  | cons e r ih =>
    by_cases hek : e.1 = k
    · by_cases hck : c = k
      · subst hck
        simp [mapInc, hek, lookupA]
      · have hec : e.1 ≠ c := fun h => hck (h ▸ hek)
        have hkc : ¬ k = c := fun hh => hck hh.symm
        simp [mapInc, hek, lookupA, hec, hck, hkc]
    · by_cases hec : e.1 = c
      · have hck : c ≠ k := fun h => hek (hec.trans h)
        simp [mapInc, hek, lookupA, hec, hck]
      · simp [mapInc, hek, lookupA, hec, ih]

theorem mapInc_keys (m : List (String × Nat)) (k : String) :
    (mapInc m k).map Prod.fst =
      if k ∈ m.map Prod.fst then m.map Prod.fst else m.map Prod.fst ++ [k] := by
  induction m with
  | nil => simp [mapInc]
  | cons e r ih =>
    by_cases hek : e.1 = k
    · simp [mapInc, hek]
    · have hke : ¬(k = e.1) := fun h => hek h.symm
      by_cases hkr : k ∈ r.map Prod.fst
      · simp [mapInc, hek, ih, hkr, hke]
      · simp [mapInc, hek, ih, hkr, hke]

theorem countAnswers_snoc (votes : List String) (v : String) :
    countAnswers (votes ++ [v]) = mapInc (countAnswers votes) v := by
  unfold countAnswers
  rw [List.foldl_append]
  rfl

theorem lookupA_countAnswers (votes : List String) (c : String) :
    lookupA (countAnswers votes) c =
      if c ∈ votes then some (votes.count c) else none := by
  induction votes using List.reverseRecOn with
  | nil => simp [countAnswers, lookupA]
  | append_singleton t v ih =>
    rw [countAnswers_snoc, lookupA_mapInc]
    by_cases hcv : c = v
    · subst hcv
      by_cases hct : c ∈ t
      · simp [ih, hct, List.count_append]
      · have hz : t.count c = 0 := List.count_eq_zero.mpr hct
        simp [ih, hct, List.count_append, hz]
    · by_cases hct : c ∈ t
      · simp [ih, hcv, hct, List.count_append, List.count_singleton', hcv]
      · have hne : ¬ c ∈ t ++ [v] := by
          simp [hct, hcv]
        simp [ih, hcv, hct, hne]

theorem lookupA_some_mem {α : Type} {m : List (String × α)} {k : String} {v : α}
    (h : lookupA m k = some v) : (k, v) ∈ m := by
  induction m with
  | nil => cases h
  | cons e r ih =>
    by_cases he : e.1 = k
    · rw [lookupA, if_pos he] at h
      obtain ⟨e1, e2⟩ := e
      have hv : e2 = v := Option.some.inj h
      have hk : e1 = k := he
      subst hv; subst hk
      exact List.mem_cons_self _ _
    · rw [lookupA, if_neg he] at h
      exact List.mem_cons_of_mem _ (ih h)

theorem mem_lookupA {α : Type} {m : List (String × α)} (hnd : (m.map Prod.fst).Nodup)
    {e : String × α} (he : e ∈ m) : lookupA m e.1 = some e.2 := by
  induction m with
  | nil => cases he
  | cons a r ih =>
    rcases List.mem_cons.mp he with h | h
    · subst h
      rw [lookupA, if_pos rfl]
    · have hk : a.1 ∉ r.map Prod.fst := (List.nodup_cons.mp hnd).1
      have hne : a.1 ≠ e.1 := fun hh => hk (hh ▸ List.mem_map_of_mem Prod.fst h)
      rw [lookupA, if_neg hne]
      exact ih (List.nodup_cons.mp hnd).2 h

theorem firstIdx_append_left {l1 : List String} (l2 : List String) {c : String}
    (h : c ∈ l1) : firstIdx (l1 ++ l2) c = firstIdx l1 c := by
  induction l1 with
  | nil => cases h
  | cons a t ih =>
    by_cases hac : a = c
    · simp [firstIdx, hac]
    · have hct : c ∈ t := by
        rcases List.mem_cons.mp h with hh | hh
        · exact absurd hh.symm hac
        · exact hh
      simp [firstIdx, hac, ih hct]

theorem firstIdx_append_self (l : List String) {v : String} (h : v ∉ l) :
    firstIdx (l ++ [v]) v = l.length := by
  induction l with
  | nil => simp [firstIdx]
  | cons a t ih =>
    have hav : a ≠ v := fun hh => h (hh ▸ List.mem_cons_self a t)
    have hvt : v ∉ t := fun hh => h (List.mem_cons_of_mem _ hh)
    simp [firstIdx, hav, ih hvt]

theorem firstIdx_lt_length {l : List String} {c : String} (h : c ∈ l) :
    firstIdx l c < l.length := by
  induction l with
  | nil => cases h
  | cons a t ih =>
    by_cases hac : a = c
    · simp [firstIdx, hac]
    · have hct : c ∈ t := by
        rcases List.mem_cons.mp h with hh | hh
        · exact absurd hh.symm hac
        · exact hh
      have hlt := ih hct
      simp only [firstIdx, hac, if_false, List.length_cons]
      omega

end Bingo

namespace Bingo

theorem countAnswers_invariants (votes : List String) :
    ((countAnswers votes).map Prod.fst).Nodup ∧
    (∀ k ∈ (countAnswers votes).map Prod.fst, k ∈ votes) ∧
    List.Pairwise (fun a b => firstIdx votes a < firstIdx votes b)
      ((countAnswers votes).map Prod.fst) := by
  induction votes using List.reverseRecOn with
  | nil => simp [countAnswers]
  | append_singleton t v ih =>
    obtain ⟨hnd, hsub, hpw⟩ := ih
    rw [countAnswers_snoc, mapInc_keys]
    by_cases hv : v ∈ (countAnswers t).map Prod.fst
    · rw [if_pos hv]
      refine ⟨hnd, ?_, ?_⟩
      · intro k hk
        exact List.mem_append_left _ (hsub k hk)
      · refine List.Pairwise.imp_of_mem ?_ hpw
        intro a b ha hb hab
        rw [firstIdx_append_left [v] (hsub a ha), firstIdx_append_left [v] (hsub b hb)]
        exact hab
    · rw [if_neg hv]
      have hvnt : v ∉ t := fun hvt => by
        have := lookupA_countAnswers t v
        rw [if_pos hvt] at this
        exact hv (List.mem_map_of_mem Prod.fst (lookupA_some_mem this))
      refine ⟨?_, ?_, ?_⟩
      · refine List.Nodup.append hnd (List.nodup_singleton v) ?_
        intro x hx hx'
        rw [List.mem_singleton] at hx'
        exact hv (hx' ▸ hx)
      · intro k hk
        rcases List.mem_append.mp hk with h | h
        · exact List.mem_append_left _ (hsub k h)
        · rw [List.mem_singleton] at h
          subst h
          exact List.mem_append_right _ (List.mem_singleton_self _)
      · rw [List.pairwise_append]
        refine ⟨?_, List.pairwise_singleton _ _, ?_⟩
        · refine List.Pairwise.imp_of_mem ?_ hpw
          intro a b ha hb hab
          rw [firstIdx_append_left [v] (hsub a ha), firstIdx_append_left [v] (hsub b hb)]
          exact hab
        · intro a ha b hb
          rw [List.mem_singleton] at hb
          rw [hb, firstIdx_append_left [v] (hsub a ha), firstIdx_append_self t hvnt]
          exact firstIdx_lt_length (hsub a ha)

theorem countAnswers_entry {votes : List String} {e : String × Nat}
    (he : e ∈ countAnswers votes) : e.1 ∈ votes ∧ e.2 = votes.count e.1 := by
  have hnd := (countAnswers_invariants votes).1
  have hl := mem_lookupA hnd he
  rw [lookupA_countAnswers] at hl
  by_cases hm : e.1 ∈ votes
  · rw [if_pos hm] at hl
    exact ⟨hm, (Option.some.inj hl).symm⟩
  · rw [if_neg hm] at hl
    cases hl

theorem le_maxVal {l : List (String × Nat)} {e : String × Nat} (he : e ∈ l) :
    e.2 ≤ maxVal l := by
  induction l with
  | nil => cases he
  | cons a t ih =>
    rcases List.mem_cons.mp he with h | h
    · subst h
      simp only [maxVal, List.foldr_cons]
      exact Nat.le_max_left _ _
    · have := ih h
      simp only [maxVal, List.foldr_cons] at *
      omega

theorem maxVal_attained {l : List (String × Nat)} (hne : l ≠ []) :
    ∃ e ∈ l, e.2 = maxVal l := by
  induction l with
  | nil => exact absurd rfl hne
  | cons a t ih =>
    by_cases ht : t = []
    · subst ht
      exact ⟨a, List.mem_cons_self _ _, by simp [maxVal]⟩
    · obtain ⟨e, hem, hev⟩ := ih ht
      by_cases hle : maxVal t ≤ a.2
      · refine ⟨a, List.mem_cons_self _ _, ?_⟩
        simp only [maxVal, List.foldr_cons] at *
        omega
      · refine ⟨e, List.mem_cons_of_mem _ hem, ?_⟩
        simp only [maxVal, List.foldr_cons] at *
        omega

theorem find?_split {α : Type} {p : α → Bool} {l : List α} {a : α}
    (h : l.find? p = some a) : ∃ l1 l2, l = l1 ++ a :: l2 ∧ ∀ x ∈ l1, p x = false := by
  induction l with
  | nil => cases h
  | cons b t ih =>
    cases hb : p b with
    | true =>
      rw [List.find?_cons_of_pos _ hb] at h
      obtain rfl : b = a := Option.some.inj h
      exact ⟨[], t, rfl, by intro x hx; cases hx⟩
    | false =>
      rw [List.find?_cons_of_neg _ (by simp [hb])] at h
      obtain ⟨l1, l2, rfl, hl1⟩ := ih h
      refine ⟨b :: l1, l2, rfl, ?_⟩
      intro x hx
      rcases List.mem_cons.mp hx with hh | hh
      · exact hh ▸ hb
      · exact hl1 x hh

theorem find?_some_of_exists {α : Type} {p : α → Bool} {l : List α}
    (h : ∃ x ∈ l, p x = true) : ∃ a, l.find? p = some a := by
  induction l with
  | nil =>
    obtain ⟨x, hx, _⟩ := h
    cases hx
  | cons b t ih =>
    cases hb : p b with
    | true => exact ⟨b, List.find?_cons_of_pos _ hb⟩
    | false =>
      obtain ⟨x, hx, hpx⟩ := h
      rcases List.mem_cons.mp hx with hh | hh
      · subst hh
        rw [hpx] at hb
        cases hb
      · obtain ⟨a, ha⟩ := ih ⟨x, hh, hpx⟩
        exact ⟨a, by rw [List.find?_cons_of_neg _ (by simp [hb])]; exact ha⟩

theorem pick_eq_find (l : List (String × Nat)) (a : String × Nat) :
    l.foldl (fun acc e => if e.2 > acc.2 then e else acc) a
      = ((a :: l).find? fun e => decide (e.2 = maxVal (a :: l))).getD a := by
  induction l generalizing a with
  | nil =>
    have hm : maxVal [a] = a.2 := by simp [maxVal]
    simp [hm]
  | cons e t ih =>
    rw [List.foldl_cons]
    by_cases h : e.2 > a.2
    · rw [if_pos h, ih e]
      have hem : e.2 ≤ maxVal (e :: t) := le_maxVal (List.mem_cons_self _ _)
      have hmax : maxVal (a :: e :: t) = maxVal (e :: t) := by
        simp only [maxVal, List.foldr_cons] at *
        omega
      rw [hmax]
      have hpa : ¬ a.2 = maxVal (e :: t) := by omega
      have hfr : List.find? (fun x => decide (x.2 = maxVal (e :: t))) (a :: e :: t)
          = List.find? (fun x => decide (x.2 = maxVal (e :: t))) (e :: t) :=
        List.find?_cons_of_neg _ (by simp [hpa])
      rw [hfr]
      have hat : ∃ x ∈ e :: t, decide (x.2 = maxVal (e :: t)) = true := by
        obtain ⟨e0, he0, hv0⟩ := maxVal_attained (l := e :: t) (by simp)
        exact ⟨e0, he0, by simp [hv0]⟩
      obtain ⟨w, hw⟩ := find?_some_of_exists hat
      rw [hw]
      simp
    · rw [if_neg h, ih a]
      have hmax : maxVal (a :: e :: t) = maxVal (a :: t) := by
        simp only [maxVal, List.foldr_cons] at *
        omega
      rw [hmax]
      by_cases hpa : a.2 = maxVal (a :: t)
      · rw [List.find?_cons_of_pos _ (by simp [hpa]), List.find?_cons_of_pos _ (by simp [hpa])]
      · have halt : a.2 ≤ maxVal (a :: t) := le_maxVal (List.mem_cons_self _ _)
        have hpe : ¬ e.2 = maxVal (a :: t) := by omega
        have hf1 : List.find? (fun x => decide (x.2 = maxVal (a :: t))) (a :: e :: t)
            = List.find? (fun x => decide (x.2 = maxVal (a :: t))) (e :: t) :=
          List.find?_cons_of_neg _ (by simp [hpa])
        have hf2 : List.find? (fun x => decide (x.2 = maxVal (a :: t))) (e :: t)
            = List.find? (fun x => decide (x.2 = maxVal (a :: t))) t :=
          List.find?_cons_of_neg _ (by simp [hpe])
        have hf3 : List.find? (fun x => decide (x.2 = maxVal (a :: t))) (a :: t)
            = List.find? (fun x => decide (x.2 = maxVal (a :: t))) t :=
          List.find?_cons_of_neg _ (by simp [hpa])
        rw [hf1, hf2, hf3]

end Bingo

namespace Bingo

theorem checkGroupConsensus_spec (votes : List String) (hne : votes ≠ [])
    (hnn : "" ∉ votes) :
    ∃ w, checkGroupConsensusResult votes = some w ∧ w ∈ votes ∧
      (∀ c ∈ votes, votes.count c ≤ votes.count w) ∧
      (∀ c ∈ votes, votes.count c = votes.count w → c ≠ w →
        firstIdx votes w < firstIdx votes c) := by
  obtain ⟨v0, t0, rfl⟩ := List.exists_cons_of_ne_nil hne
  set votes := v0 :: t0 with hvotes
  have hv0 : v0 ∈ votes := List.mem_cons_self _ _
  -- the counting map is nonempty
  have hmne : countAnswers votes ≠ [] := by
    intro hempty
    have := lookupA_countAnswers votes v0
    rw [hempty, if_pos hv0] at this
    cases this
  -- every count in the map is positive
  have hpos : ∀ e ∈ countAnswers votes, 1 ≤ e.2 := by
    intro e he
    obtain ⟨hm, hc⟩ := countAnswers_entry he
    have := List.count_pos_iff.mpr hm
    omega
  -- the maximum count is positive and attained
  obtain ⟨etop, hetop, hvtop⟩ := maxVal_attained hmne
  have hM1 : 1 ≤ maxVal (countAnswers votes) := hvtop ▸ hpos etop hetop
  -- the initial accumulator ("", 0) never wins
  have hmax0 : maxVal (("", 0) :: countAnswers votes) = maxVal (countAnswers votes) := by
    simp [maxVal]
  have hfr : List.find? (fun x => decide (x.2 = maxVal (countAnswers votes)))
        (("", 0) :: countAnswers votes)
      = List.find? (fun x => decide (x.2 = maxVal (countAnswers votes)))
        (countAnswers votes) :=
    List.find?_cons_of_neg _ (by simp; omega)
  obtain ⟨w, hw⟩ := find?_some_of_exists
    (p := fun x => decide (x.2 = maxVal (countAnswers votes)))
    ⟨etop, hetop, by simp [hvtop]⟩
  have hpick : pickMostCommon (countAnswers votes) = w := by
    unfold pickMostCommon
    rw [pick_eq_find, hmax0, hfr, hw]
    rfl
  have hwm : w ∈ countAnswers votes := List.mem_of_find?_eq_some hw
  have hwp : w.2 = maxVal (countAnswers votes) := by
    have := List.find?_some hw
    simpa using this
  obtain ⟨hwv, hwc⟩ := countAnswers_entry hwm
  have hwne : w.1 ≠ "" := fun hh => hnn (hh ▸ hwv)
  refine ⟨w.1, ?_, hwv, ?_, ?_⟩
  · unfold checkGroupConsensusResult
    rw [if_neg (by simp [hvotes]), hpick, if_neg hwne]
  · intro c hc
    have hlc := lookupA_countAnswers votes c
    rw [if_pos hc] at hlc
    have hcm : (c, votes.count c) ∈ countAnswers votes := lookupA_some_mem hlc
    have := le_maxVal hcm
    simp only at this
    omega
  · intro c hc hcount hcw
    have hlc := lookupA_countAnswers votes c
    rw [if_pos hc] at hlc
    have hcm : (c, votes.count c) ∈ countAnswers votes := lookupA_some_mem hlc
    obtain ⟨l1, l2, hsplit, hl1⟩ := find?_split hw
    have hcl : (c, votes.count c) ∈ l2 := by
      rw [hsplit] at hcm
      rcases List.mem_append.mp hcm with hh | hh
      · exfalso
        have := hl1 _ hh
        simp only [decide_eq_false_iff_not] at this
        apply this
        show votes.count c = maxVal (countAnswers votes)
        omega
      · rcases List.mem_cons.mp hh with hh2 | hh2
        · exact absurd (congrArg Prod.fst hh2) hcw
        · exact hh2
    have hpw := (countAnswers_invariants votes).2.2
    rw [hsplit, List.map_append, List.map_cons, List.pairwise_append] at hpw
    have hrel := (List.pairwise_cons.mp hpw.2.1).1
    exact hrel c (List.mem_map_of_mem Prod.fst hcl)

end Bingo

namespace Bingo

theorem revealTally_invariant (votes : List String) :
    (votes.foldl revealStep ([], "", 0)).1 = countAnswers votes ∧
    (∀ c, votes.count c ≤ (votes.foldl revealStep ([], "", 0)).2.2) ∧
    (votes ≠ [] → (votes.foldl revealStep ([], "", 0)).2.1 ∈ votes ∧
      votes.count ((votes.foldl revealStep ([], "", 0)).2.1)
        = (votes.foldl revealStep ([], "", 0)).2.2) := by
  induction votes using List.reverseRecOn with
  | nil => simp [countAnswers]
  | append_singleton t v ih =>
    obtain ⟨hm, hcount, hws⟩ := ih
    rw [List.foldl_append]
    by_cases ht : t = []
    · subst ht
      simp only [List.foldl_nil, List.nil_append]
      constructor
      · show (revealStep ([], "", 0) v).1 = countAnswers [v]
        simp [revealStep, lookupA, mapInc, countAnswers]
      constructor
      · intro c
        by_cases hcv : c = v
        · subst hcv
          simp [revealStep, lookupA, List.count_singleton]
        · have hvc : ¬ v = c := fun hh => hcv hh.symm
          simp [revealStep, lookupA, List.count_singleton', hvc]
      · intro _
        constructor
        · simp [revealStep, lookupA]
        · simp [revealStep, lookupA, List.count_singleton]
    · rw [List.foldl_cons, List.foldl_nil]
      obtain ⟨hwmem, hwcount⟩ := hws ht
      set st := t.foldl revealStep ([], "", 0) with hst
      have hcnt : ((lookupA st.1 v).getD 0) = t.count v := by
        rw [hm, lookupA_countAnswers]
        by_cases hv : v ∈ t
        · rw [if_pos hv]; rfl
        · rw [if_neg hv]
          simp [List.count_eq_zero.mpr hv]
      have hstep : revealStep st v =
          if t.count v + 1 > st.2.2 then (mapInc st.1 v, v, t.count v + 1)
          else (mapInc st.1 v, st.2.1, st.2.2) := by
        simp only [revealStep, hcnt]
      rw [hstep]
      by_cases hgt : t.count v + 1 > st.2.2
      · rw [if_pos hgt]
        refine ⟨?_, ?_, fun _ => ⟨?_, ?_⟩⟩
        · show mapInc st.1 v = countAnswers (t ++ [v])
          rw [countAnswers_snoc, hm]
        · intro c
          show List.count c (t ++ [v]) ≤ t.count v + 1
          by_cases hcv : c = v
          · subst hcv
            simp [List.count_append]
          · have hvc : ¬ v = c := fun hh => hcv hh.symm
            have hz : List.count c [v] = 0 := by
              simp [List.count_singleton', hvc]
            have := hcount c
            simp only [List.count_append]
            omega
        · exact List.mem_append_right _ (List.mem_singleton_self v)
        · show List.count v (t ++ [v]) = t.count v + 1
          simp [List.count_append, List.count_singleton]
      · rw [if_neg hgt]
        push_neg at hgt
        refine ⟨?_, ?_, fun _ => ⟨?_, ?_⟩⟩
        · show mapInc st.1 v = countAnswers (t ++ [v])
          rw [countAnswers_snoc, hm]
        · intro c
          show List.count c (t ++ [v]) ≤ st.2.2
          by_cases hcv : c = v
          · subst hcv
            have hone : List.count c [c] = 1 := by simp
            simp only [List.count_append, hone]
            omega
          · have hvc : ¬ v = c := fun hh => hcv hh.symm
            have hz : List.count c [v] = 0 := by
              simp [List.count_singleton', hvc]
            have := hcount c
            simp only [List.count_append]
            omega
        · exact List.mem_append_left _ hwmem
        · have hwv : st.2.1 ≠ v := by
            intro hh
            rw [← hh, hwcount] at hgt
            omega
          have hvw : ¬ v = st.2.1 := fun hh => hwv hh.symm
          have hz : List.count st.2.1 [v] = 0 := by
            simp [List.count_singleton', hvw]
          show List.count st.2.1 (t ++ [v]) = st.2.2
          simp only [List.count_append]
          omega

theorem reveal_spec (votes : List String) (hne : votes ≠ []) (hnn : "" ∉ votes) :
    ∃ u, revealConsensusResult votes = some u ∧ u ∈ votes ∧
      ∀ c ∈ votes, votes.count c ≤ votes.count u := by
  obtain ⟨hm, hcount, hws⟩ := revealTally_invariant votes
  obtain ⟨hwmem, hwcount⟩ := hws hne
  refine ⟨(votes.foldl revealStep ([], "", 0)).2.1, ?_, hwmem, ?_⟩
  · have hwe : ¬ (votes.foldl revealStep ([], "", 0)).2.1 = "" := by
      intro hh
      rw [hh] at hwmem
      exact hnn hwmem
    unfold revealConsensusResult
    rw [if_neg hwe]
  · intro c hc
    rw [hwcount]
    exact hcount c

end Bingo

namespace Bingo

/-- Claim C1 (amended): for every non-empty vote list whose choice ids are
non-empty strings, both resolution paths return a choice with the highest
count, and the per-vote recompute path (`checkGroupConsensus`) additionally
breaks ties by the choice whose first supporting vote has the smallest
arrival index; both paths report no consensus on the empty vote list.
(As stated the claim is false: the reveal-time tally in
`handleRevealAnswer` breaks ties by the choice whose running count first
reaches the maximum, not by earliest first vote, and a non-empty list
containing the empty-string choice id also yields no consensus.) -/
theorem claim1_amended (votes : List String) (hne : votes ≠ []) (hnn : "" ∉ votes) :
    (∃ w, checkGroupConsensusResult votes = some w ∧ w ∈ votes ∧
      (∀ c ∈ votes, votes.count c ≤ votes.count w) ∧
      (∀ c ∈ votes, votes.count c = votes.count w → c ≠ w →
        firstIdx votes w < firstIdx votes c)) ∧
    (∃ u, revealConsensusResult votes = some u ∧ u ∈ votes ∧
      ∀ c ∈ votes, votes.count c ≤ votes.count u) ∧
    checkGroupConsensusResult [] = none ∧ revealConsensusResult [] = none :=
  ⟨checkGroupConsensus_spec votes hne hnn, reveal_spec votes hne hnn, rfl, rfl⟩

/-- Counterexample to claim C1 as stated: with the votes of four distinct
players arriving in the order `B, A, A, B` the two choices tie at two votes
each and the first vote for `"B"` precedes the first vote for `"A"`, so the
claimed tie-break demands `"B"` on both paths; `checkGroupConsensus`
resolves to `"B"`, but the reveal-time tally resolves to `"A"`. Moreover
the per-vote path reports no consensus on the non-empty vote list `[""]`. -/
theorem claim1_counterexample :
    checkGroupConsensusResult ["B", "A", "A", "B"] = some "B" ∧
    revealConsensusResult ["B", "A", "A", "B"] = some "A" ∧
    (["B", "A", "A", "B"] : List String).count "A"
      = (["B", "A", "A", "B"] : List String).count "B" ∧
    firstIdx ["B", "A", "A", "B"] "B" < firstIdx ["B", "A", "A", "B"] "A" ∧
    checkGroupConsensusResult [""] = none := by
  refine ⟨rfl, rfl, rfl, ?_, rfl⟩
  show 0 < 1
  exact Nat.zero_lt_one

/-- Witness for C1 (amended) at the spec's own example: two votes for
`cell-B2` and one for `cell-B3`, arriving in that order. -/
theorem claim1_witness :
    (∃ w, checkGroupConsensusResult ["cell-B2", "cell-B2", "cell-B3"] = some w ∧
      w ∈ ["cell-B2", "cell-B2", "cell-B3"] ∧
      (∀ c ∈ ["cell-B2", "cell-B2", "cell-B3"],
        (["cell-B2", "cell-B2", "cell-B3"] : List String).count c
          ≤ (["cell-B2", "cell-B2", "cell-B3"] : List String).count w) ∧
      (∀ c ∈ ["cell-B2", "cell-B2", "cell-B3"],
        (["cell-B2", "cell-B2", "cell-B3"] : List String).count c
          = (["cell-B2", "cell-B2", "cell-B3"] : List String).count w → c ≠ w →
        firstIdx ["cell-B2", "cell-B2", "cell-B3"] w
          < firstIdx ["cell-B2", "cell-B2", "cell-B3"] c)) ∧
    (∃ u, revealConsensusResult ["cell-B2", "cell-B2", "cell-B3"] = some u ∧
      u ∈ ["cell-B2", "cell-B2", "cell-B3"] ∧
      ∀ c ∈ ["cell-B2", "cell-B2", "cell-B3"],
        (["cell-B2", "cell-B2", "cell-B3"] : List String).count c
          ≤ (["cell-B2", "cell-B2", "cell-B3"] : List String).count u) ∧
    checkGroupConsensusResult [] = none ∧ revealConsensusResult [] = none :=
  claim1_amended ["cell-B2", "cell-B2", "cell-B3"] (by decide) (by decide)

end Bingo

namespace Bingo

/-! ### Lemmas about the coordinator -/

theorem revealLoop_cleared (boardSize : Nat) (groups : List GroupRow) (s : CoordState)
    (out : List (String × OutMsg)) (sch : List Bool) (h : s.gameAnswers = []) :
    revealLoop boardSize groups s out sch = (false, s, out, sch) := by
  induction groups with
  | nil => rfl
  | cons g rest ih =>
    unfold revealLoop
    rw [h]
    simpa [lookupA] using ih

theorem coordState_clear_self {s : CoordState} (h : s.gameAnswers = []) :
    { s with gameAnswers := ([] : List (String × List (String × String))) } = s := by
  cases s with
  | mk store ga conns =>
    simp only at h
    rw [h]

theorem sendGameUpdateMsgs_shape (conns : List (String × Bool)) (gv : GameView) :
    ∀ pm ∈ sendGameUpdateMsgs conns gv,
      (∃ v, pm.2 = OutMsg.gameUpdateHost v) ∨ ∃ v, pm.2 = OutMsg.gameUpdatePlayer v := by
  intro pm hpm
  unfold sendGameUpdateMsgs at hpm
  rcases List.mem_append.mp hpm with hh | hh
  · left
    rcases hcf : connFor conns "host" with _ | b
    · rw [hcf] at hh; cases hh
    · rw [hcf] at hh
      cases b
      · cases hh
      · rcases List.mem_singleton.mp hh with rfl
        exact ⟨hostViewOf gv, rfl⟩
  · right
    rcases List.mem_flatMap.mp hh with ⟨c, _, hc⟩
    by_cases hskip : c.1 = "host" ∨ c.2 = false
    · rw [if_pos hskip] at hc; cases hc
    · rw [if_neg hskip] at hc
      rcases hpv : playerViewOf gv c.1 with _ | v
      · rw [hpv] at hc; cases hc
      · rw [hpv] at hc
        rcases List.mem_singleton.mp hc with rfl
        exact ⟨v, rfl⟩

theorem handleRevealAnswer_cleared (s : CoordState) (sch : List Bool)
    (hclr : s.gameAnswers = []) :
    (handleRevealAnswer s sch).1 = s ∧
    ((handleRevealAnswer s sch).2.1 = [] ∨
     (handleRevealAnswer s sch).2.1 = sendGameUpdateMsgs s.conns (getGame s.store)) := by
  unfold handleRevealAnswer
  by_cases hf : (takeFault sch).1
  · simp [hf]
  · simp only [hf, if_false, Bool.false_eq_true]
    by_cases hst : (getGame s.store).status ≠ GameStatus.active
    · simp [hst]
    · simp only [hst, if_false]
      rw [revealLoop_cleared _ _ _ _ _ hclr]
      simp only
      rw [coordState_clear_self hclr]
      unfold sendGameUpdateStep
      by_cases hf2 : (takeFault (takeFault sch).2).1
      · simp [hf2]
      · simp [hf2]

/-- Claim C3: a `reveal_answer` arriving after the in-flight votes have
been cleared is a no-op under every fault schedule: the coordinator state
(storage included) is unchanged, and nothing but role-scoped `game_update`
snapshots is emitted — in particular no `bingo_achieved` and no storage
write. -/
theorem claim3_second_reveal_noop (origin cellId position : String) (s : CoordState)
    (sch : List Bool) (hclr : s.gameAnswers = []) :
    (dispatch origin (InEvent.revealAnswer cellId position) s sch).1 = s ∧
    ∀ pm ∈ (dispatch origin (InEvent.revealAnswer cellId position) s sch).2.1,
      isBingoAchieved pm.2 = false ∧ isErrorMsg pm.2 = false := by
  have hd : dispatch origin (InEvent.revealAnswer cellId position) s sch
      = ((handleRevealAnswer s sch).1, (handleRevealAnswer s sch).2.1,
         (handleRevealAnswer s sch).2.2) := by
    unfold dispatch handleEvent
    rfl
  obtain ⟨hs, hout⟩ := handleRevealAnswer_cleared s sch hclr
  rw [hd]
  refine ⟨hs, ?_⟩
  intro pm hpm
  rcases hout with hout | hout
  · rw [hout] at hpm
    cases hpm
  · rw [hout] at hpm
    rcases sendGameUpdateMsgs_shape s.conns (getGame s.store) pm hpm with ⟨v, hv⟩ | ⟨v, hv⟩ <;>
      simp [hv, isBingoAchieved, isErrorMsg]

/-- Witness for C3 at a concrete state: the vote maps of `exBingoState` are
clear, so a reveal leaves the state unchanged. -/
theorem claim3_witness :
    (dispatch "host" (InEvent.revealAnswer "cell-A1" "A1") exBingoState []).1
      = exBingoState :=
  (claim3_second_reveal_noop "host" "cell-A1" "A1" exBingoState [] rfl).1

/-- Claim C8: a `select_answer` from a player who belongs to no group of
the game answers that connection alone with an `error` event — no other
participant receives any message — and mutates nothing, under every fault
schedule. -/
theorem claim8_ungrouped_select_error (origin playerId cellId : String) (s : CoordState)
    (sch : List Bool)
    (h : ∀ g ∈ s.store.groups, ∀ p ∈ g.players, p.id ≠ playerId) :
    ∃ sch1, dispatch origin (InEvent.selectAnswer playerId cellId) s sch
      = (s, [(origin, OutMsg.errorMsg "Failed to process message")], sch1) := by
  have hfind : findPlayerGroup (getGame s.store).groups playerId = none := by
    apply List.find?_eq_none.mpr
    intro g hg
    intro hany
    rcases List.any_eq_true.mp hany with ⟨p, hp, hpid⟩
    exact absurd (of_decide_eq_true hpid) (h g hg p hp)
  have herr : ∃ sch1, handleSelectAnswer s playerId cellId sch = HRes.err s [] sch1 := by
    unfold handleSelectAnswer
    by_cases hval : playerId = "" ∨ cellId = ""
    · exact ⟨sch, by rw [if_pos hval]⟩
    · rw [if_neg hval]
      by_cases hf : (takeFault sch).1
      · exact ⟨(takeFault sch).2, by rw [if_pos hf]⟩
      · simp only [hf, Bool.false_eq_true, if_false]
        by_cases hst : (getGame s.store).status ≠ GameStatus.active
        · exact ⟨(takeFault sch).2, by rw [if_pos hst]⟩
        · rw [if_neg hst, hfind]
          exact ⟨(takeFault sch).2, rfl⟩
  obtain ⟨sch1, hh⟩ := herr
  refine ⟨sch1, ?_⟩
  unfold dispatch handleEvent
  dsimp only
  rw [hh]
  rfl

/-- Witness for C8: the player `px` belongs to no group of `exBingoState`. -/
theorem claim8_witness :
    ∃ sch1, dispatch "px" (InEvent.selectAnswer "px" "cell-A1") exBingoState []
      = (exBingoState, [("px", OutMsg.errorMsg "Failed to process message")], sch1) :=
  claim8_ungrouped_select_error "px" "px" "cell-A1" exBingoState [] (by decide)

end Bingo

namespace Bingo

theorem findPlayerGroup_congr (playerId : String) {gs1 gs2 : List GroupRow}
    (h : List.Forall₂ (fun g1 g2 => g1.players = g2.players ∧
      ((g1.players.any fun p => decide (p.id = playerId)) = true → g1 = g2)) gs1 gs2) :
    findPlayerGroup gs1 playerId = findPlayerGroup gs2 playerId := by
  induction h with
  | nil => rfl
  | @cons g1 g2 t1 t2 hr hrest ih =>
    unfold findPlayerGroup at ih ⊢
    by_cases hp : (g1.players.any fun p => decide (p.id = playerId)) = true
    · have hp2 : (g2.players.any fun p => decide (p.id = playerId)) = true := by
        rw [← hr.1]
        exact hp
      simp only [List.find?_cons, hp, hp2]
      rw [hr.2 hp]
    · have hpf : (g1.players.any fun p => decide (p.id = playerId)) = false := by
        simpa using hp
      have hp2f : (g2.players.any fun p => decide (p.id = playerId)) = false := by
        rw [← hr.1]
        exact hpf
      simp only [List.find?_cons, hpf, hp2f]
      exact ih

theorem findPlayerGroup_mem {gs : List GroupRow} {playerId : String} {g : GroupRow}
    (h : findPlayerGroup gs playerId = some g) :
    g ∈ gs ∧ (g.players.any fun p => decide (p.id = playerId)) = true := by
  unfold findPlayerGroup at h
  have h2 := List.find?_some
    (p := fun g : GroupRow => g.players.any fun p => decide (p.id = playerId)) h
  exact ⟨List.mem_of_find?_eq_some h, h2⟩

/-- Claim C9: a player's `game_update` payload is their own group's view
plus the current question only: it is unchanged under any modification
confined to the other groups (their boards included), the group it does
contain is the player's own, and the host's payload carries all groups. -/
theorem claim9_role_scoped_update (gv1 gv2 : GameView) (playerId : String)
    (hid : gv1.id = gv2.id) (hname : gv1.name = gv2.name)
    (hstatus : gv1.status = gv2.status) (hboard : gv1.boardSize = gv2.boardSize)
    (hcell : gv1.cellSize = gv2.cellSize)
    (hq : gv1.currentQuestion = gv2.currentQuestion)
    (hgroups : List.Forall₂ (fun g1 g2 => g1.players = g2.players ∧
      ((g1.players.any fun p => decide (p.id = playerId)) = true → g1 = g2))
      gv1.groups gv2.groups) :
    playerViewOf gv1 playerId = playerViewOf gv2 playerId ∧
    (∀ v, playerViewOf gv1 playerId = some v →
      v.currentGroup ∈ gv1.groups ∧
      (v.currentGroup.players.any fun p => decide (p.id = playerId)) = true) ∧
    (hostViewOf gv1).groups = gv1.groups := by
  refine ⟨?_, ?_, rfl⟩
  · unfold playerViewOf
    rw [findPlayerGroup_congr playerId hgroups, hid, hname, hstatus, hboard, hcell, hq]
  · intro v hv
    unfold playerViewOf at hv
    rcases hf : findPlayerGroup gv1.groups playerId with _ | grp
    · rw [hf] at hv
      cases hv
    · rw [hf] at hv
      obtain ⟨hmem, hany⟩ := findPlayerGroup_mem hf
      have : v.currentGroup = grp := by
        rw [← Option.some.inj hv]
      rw [this]
      exact ⟨hmem, hany⟩

/-- Witness for C9: `exView2` differs from `exView1` only in the second
group's board and bingo state, and `p1`'s `game_update` payload is
identical for both. -/
theorem claim9_witness :
    playerViewOf exView1 "p1" = playerViewOf exView2 "p1" :=
  (claim9_role_scoped_update exView1 exView2 "p1" rfl rfl rfl rfl rfl rfl
    (List.Forall₂.cons ⟨rfl, fun _ => rfl⟩
      (List.Forall₂.cons ⟨rfl, fun hh => absurd hh (by decide)⟩ List.Forall₂.nil))).1

end Bingo

namespace Bingo

theorem updateAnswerRow_keys (rows : List PlayerAnswerRow) (qid pid gid cid pos : String) :
    (updateAnswerRow rows qid pid gid cid pos).map (fun a => (a.questionId, a.playerId))
      = rows.map fun a => (a.questionId, a.playerId) := by
  induction rows with
  | nil => rfl
  | cons a rest ih =>
    unfold updateAnswerRow
    by_cases h : a.questionId = qid ∧ a.playerId = pid
    · simp [h]
    · simp [h, ih]

theorem updateAnswerRow_unique {rows : List PlayerAnswerRow} (qid pid gid cid pos : String)
    (hu : answersKeyUnique rows) :
    answersKeyUnique (updateAnswerRow rows qid pid gid cid pos) := by
  unfold answersKeyUnique at hu ⊢
  have h1 : List.Pairwise (fun k1 k2 : String × String => ¬(k1.1 = k2.1 ∧ k1.2 = k2.2))
      (rows.map fun a => (a.questionId, a.playerId)) := List.pairwise_map.mpr hu
  rw [← updateAnswerRow_keys rows qid pid gid cid pos] at h1
  exact List.pairwise_map.mp h1

theorem updateAnswerRow_filter (rows : List PlayerAnswerRow) (qid pid gid cid pos : String)
    (hu : answersKeyUnique rows)
    (hex : rows.any (fun a => decide (a.questionId = qid ∧ a.playerId = pid)) = true) :
    ((updateAnswerRow rows qid pid gid cid pos).filter fun a =>
      decide (a.questionId = qid ∧ a.playerId = pid)).map (fun a => a.cellId) = [cid] := by
  induction rows with
  | nil => cases hex
  | cons a rest ih =>
    unfold updateAnswerRow
    by_cases h : a.questionId = qid ∧ a.playerId = pid
    · rw [if_pos h]
      have hrest : ∀ b ∈ rest, ¬ decide (b.questionId = qid ∧ b.playerId = pid) = true := by
        intro b hb hcon
        obtain ⟨hc1, hc2⟩ := of_decide_eq_true hcon
        exact (List.pairwise_cons.mp hu).1 b hb ⟨h.1.trans hc1.symm, h.2.trans hc2.symm⟩
      rw [List.filter_cons_of_pos (by simp [h]), List.filter_eq_nil_iff.mpr hrest]
      rfl
    · rw [if_neg h]
      have hex2 : rest.any (fun a => decide (a.questionId = qid ∧ a.playerId = pid)) = true := by
        rcases List.any_eq_true.mp hex with ⟨x, hx, hpx⟩
        rcases List.mem_cons.mp hx with rfl | hx2
        · exact absurd (of_decide_eq_true hpx) h
        · exact List.any_eq_true.mpr ⟨x, hx2, hpx⟩
      rw [List.filter_cons_of_neg (by simpa using h)]
      exact ih (List.pairwise_cons.mp hu).2 hex2

theorem jsMapSet_lookup {α : Type} (m : List (String × α)) (k : String) (v : α) :
    lookupA (jsMapSet m k v) k = some v := by
  induction m with
  | nil => simp [jsMapSet, lookupA]
  | cons e r ih =>
    by_cases h : e.1 = k
    · simp [jsMapSet, h, lookupA]
    · simp [jsMapSet, h, lookupA, ih]

theorem jsMapSet_lookup_ne {α : Type} (m : List (String × α)) (k k' : String) (v : α)
    (hne : k' ≠ k) : lookupA (jsMapSet m k v) k' = lookupA m k' := by
  have hkk : ¬ k = k' := fun hh => hne hh.symm
  induction m with
  | nil => simp [jsMapSet, lookupA, hkk]
  | cons e r ih =>
    by_cases h : e.1 = k
    · have he : ¬ e.1 = k' := fun hh => hkk (h ▸ hh)
      simp [jsMapSet, h, lookupA, hkk, he]
    · by_cases he : e.1 = k'
      · simp [jsMapSet, h, lookupA, he, hne]
      · simp [jsMapSet, h, lookupA, he, hne, ih]

theorem jsMapSet_keys {α : Type} (m : List (String × α)) (k : String) (v : α) :
    (jsMapSet m k v).map Prod.fst
      = if k ∈ m.map Prod.fst then m.map Prod.fst else m.map Prod.fst ++ [k] := by
  induction m with
  | nil => simp [jsMapSet]
  | cons e r ih =>
    by_cases h : e.1 = k
    · simp [jsMapSet, h]
    · have hke : ¬ k = e.1 := fun hh => h hh.symm
      by_cases hkr : k ∈ r.map Prod.fst
      · simp [jsMapSet, h, ih, hkr, hke]
      · simp [jsMapSet, h, ih, hkr, hke]

theorem jsMapSet_nodup {α : Type} (m : List (String × α)) (k : String) (v : α)
    (h : (m.map Prod.fst).Nodup) : ((jsMapSet m k v).map Prod.fst).Nodup := by
  rw [jsMapSet_keys]
  by_cases hk : k ∈ m.map Prod.fst
  · rw [if_pos hk]
    exact h
  · rw [if_neg hk]
    refine List.Nodup.append h (List.nodup_singleton k) ?_
    intro x hx hx'
    rw [List.mem_singleton] at hx'
    exact hk (hx' ▸ hx)

/-- Claim C6: re-voting supersedes. In storage, `recordPlayerAnswer` keeps
at most one answer row per (question, player) and leaves exactly the
player's most recent choice for the current question, so `getGroupAnswers`
never yields two rows of one player (no double counting); in the in-memory
vote map, `Map.set` overwrites the player's entry and leaves others
untouched. -/
theorem claim6_revote_supersedes (store : StorageState) (playerId groupId cellId : String)
    (hu : answersKeyUnique store.playerAnswers) :
    (∀ store1, recordPlayerAnswer store playerId groupId cellId = Except.ok store1 →
      answersKeyUnique store1.playerAnswers ∧
      (∀ cq, currentQuestionOf store = some cq →
        (store1.playerAnswers.filter fun a =>
          decide (a.questionId = cq.id ∧ a.playerId = playerId)).map (fun a => a.cellId)
          = [cellId]) ∧
      ∀ gid, List.Pairwise (fun a b => a.playerId ≠ b.playerId)
        (getGroupAnswers store1 gid)) ∧
    (∀ (m : List (String × String)), (m.map Prod.fst).Nodup →
      ((jsMapSet m playerId cellId).map Prod.fst).Nodup ∧
      lookupA (jsMapSet m playerId cellId) playerId = some cellId ∧
      ∀ k, k ≠ playerId → lookupA (jsMapSet m playerId cellId) k = lookupA m k) := by
  constructor
  · intro store1 hok
    have hq : store1.questions = store.questions ∧ store1.game = store.game ∧
        answersKeyUnique store1.playerAnswers ∧
        ((store1.playerAnswers.filter fun a =>
          decide (a.questionId = answerKeyQid store ∧
            a.playerId = playerId)).map (fun a => a.cellId) = [cellId]) := by
      unfold recordPlayerAnswer at hok
      split at hok
      · cases hok
      · split at hok
        · split at hok
          · rename_i x position hsplit
            split at hok
            · rename_i hany
              injection hok with hok1
              subst hok1
              refine ⟨rfl, rfl, updateAnswerRow_unique _ _ _ _ _ hu, ?_⟩
              exact updateAnswerRow_filter store.playerAnswers (answerKeyQid store) playerId
                groupId cellId position hu hany
            · rename_i hany
              injection hok with hok1
              subst hok1
              have hall : ∀ b ∈ store.playerAnswers,
                  ¬ decide (b.questionId = answerKeyQid store ∧ b.playerId = playerId)
                    = true := by
                intro b hb hcon
                exact hany (List.any_eq_true.mpr ⟨b, hb, hcon⟩)
              constructor
              · rfl
              constructor
              · rfl
              constructor
              · unfold answersKeyUnique at hu ⊢
                rw [List.pairwise_append]
                refine ⟨hu, List.pairwise_singleton _ _, ?_⟩
                intro a ha b hb
                rw [List.mem_singleton] at hb
                subst hb
                intro hcon
                apply hall a ha
                apply decide_eq_true
                exact ⟨hcon.1, hcon.2⟩
              · show ((store.playerAnswers ++
                  [(⟨answerKeyQid store, playerId, groupId, cellId, position⟩ :
                    PlayerAnswerRow)]).filter
                    fun a => decide (a.questionId = answerKeyQid store ∧
                      a.playerId = playerId)).map (fun a => a.cellId) = [cellId]
                rw [List.filter_append, List.filter_eq_nil_iff.mpr hall]
                simp
          · cases hok
        · cases hok
    obtain ⟨hqs, hgm, hu1, hfl⟩ := hq
    refine ⟨hu1, ?_, ?_⟩
    · intro cq hcq
      have hkey : answerKeyQid store = cq.id := by
        unfold answerKeyQid
        rw [show store.currentQuestion = some cq from hcq]
      rw [hkey] at hfl
      exact hfl
    · intro gid
      unfold getGroupAnswers
      split
      · exact List.Pairwise.nil
      · rename_i cq1 hcq1
        have hp := hu1
        unfold answersKeyUnique at hp
        refine List.Pairwise.imp_of_mem ?_ (List.Pairwise.filter _ hp)
        intro a b ha hb hr
        have hfa := (List.mem_filter.mp ha).2
        have hfb := (List.mem_filter.mp hb).2
        obtain ⟨ha1, _⟩ := of_decide_eq_true hfa
        obtain ⟨hb1, _⟩ := of_decide_eq_true hfb
        intro hpid
        exact hr ⟨ha1.trans hb1.symm, hpid⟩
  · intro m hm
    exact ⟨jsMapSet_nodup m playerId cellId hm, jsMapSet_lookup m playerId cellId,
      fun k hk => jsMapSet_lookup_ne m playerId k cellId hk⟩

/-- Witness for C6 at a concrete store: `p1` re-votes `cell-A1` over an
earlier `cell-A2`; the single stored row is superseded in place. -/
theorem claim6_witness :
    answersKeyUnique exVoteStoreAfter.playerAnswers ∧
    (exVoteStoreAfter.playerAnswers.filter fun a =>
      decide (a.questionId = "q1" ∧ a.playerId = "p1")).map (fun a => a.cellId)
      = ["cell-A1"] := by
  have h := claim6_revote_supersedes exVoteStore "p1" "g1" "cell-A1"
    (by unfold answersKeyUnique; exact List.pairwise_singleton _ _)
  have hok : recordPlayerAnswer exVoteStore "p1" "g1" "cell-A1"
      = Except.ok exVoteStoreAfter := by rfl
  have h2 := h.1 exVoteStoreAfter hok
  exact ⟨h2.1, h2.2.1 ⟨"q1", "Q1", 30⟩ rfl⟩

end Bingo

namespace Bingo

theorem bingoLe_refl (gs : List GroupRow) : bingoLe gs gs := by
  induction gs with
  | nil => exact List.Forall₂.nil
  | cons g t ih => exact List.Forall₂.cons (fun h => h) ih

theorem bingoLe_trans {a b c : List GroupRow} (h1 : bingoLe a b) (h2 : bingoLe b c) :
    bingoLe a c := by
  induction h1 generalizing c with
  | nil =>
    cases h2
    exact List.Forall₂.nil
  | cons hr _ ih =>
    cases h2 with
    | cons hr2 hrest2 => exact List.Forall₂.cons (fun h => hr2 (hr h)) (ih hrest2)

theorem bingoLe_map (gs : List GroupRow) (f : GroupRow → GroupRow)
    (hf : ∀ g, g.hasBingo = true → (f g).hasBingo = true) : bingoLe gs (gs.map f) := by
  induction gs with
  | nil => exact List.Forall₂.nil
  | cons g t ih => exact List.Forall₂.cons (hf g) ih

theorem getNextQuestion_parts (st : StorageState) :
    (getNextQuestion st).2.groups = st.groups ∧ (getNextQuestion st).2.game = st.game := by
  unfold getNextQuestion
  split <;> exact ⟨rfl, rfl⟩

theorem recordPlayerAnswer_parts {st : StorageState} {pid gid cid : String}
    {st1 : StorageState} (h : recordPlayerAnswer st pid gid cid = Except.ok st1) :
    st1.groups = st.groups ∧ st1.game = st.game ∧ st1.questions = st.questions := by
  unfold recordPlayerAnswer at h
  split at h
  · cases h
  · split at h
    · split at h
      · split at h <;> (injection h with h1; subst h1; exact ⟨rfl, rfl, rfl⟩)
      · cases h
    · cases h

theorem setGroupCellCorrect_bingoLe (gs : List GroupRow) (gid pos : String) (b : Bool) :
    bingoLe gs (setGroupCellCorrect gs gid pos b) := by
  induction gs with
  | nil => exact List.Forall₂.nil
  | cons g t ih =>
    unfold setGroupCellCorrect
    by_cases h : g.id = gid
    · rw [if_pos h]
      exact List.Forall₂.cons (fun hh => hh) (bingoLe_refl t)
    · rw [if_neg h]
      exact List.Forall₂.cons (fun hh => hh) ih

theorem setBingoOn_bingoLe (gs : List GroupRow) (gid : String) (pat : List String) :
    bingoLe gs (setBingoOn gs gid pat) := by
  induction gs with
  | nil => exact List.Forall₂.nil
  | cons g t ih =>
    unfold setBingoOn
    by_cases h : g.id = gid
    · rw [if_pos h]
      exact List.Forall₂.cons (fun _ => rfl) (bingoLe_refl t)
    · rw [if_neg h]
      exact List.Forall₂.cons (fun hh => hh) ih

theorem setGroupAnswer_parts {st : StorageState} {gid cid : String} {st1 : StorageState}
    (h : setGroupAnswer st gid cid = Except.ok st1) :
    bingoLe st.groups st1.groups ∧ st1.game = st.game ∧ st1.questions = st.questions := by
  unfold setGroupAnswer at h
  split at h
  · cases h
  · split at h
    · cases h
    · split at h
      · split at h
        · cases h
        · split at h
          · cases h
          · injection h with h1
            subst h1
            exact ⟨setGroupCellCorrect_bingoLe _ _ _ _, rfl, rfl⟩
      · cases h

theorem setGroupBingo_bingoLe {st : StorageState} {gid : String} {pat : List String}
    {st1 : StorageState} (h : setGroupBingo st gid pat = Except.ok st1) :
    bingoLe st.groups st1.groups := by
  unfold setGroupBingo at h
  split at h
  · injection h with h1
    subst h1
    exact setBingoOn_bingoLe _ _ _
  · cases h

theorem checkGroupConsensus_bingoLe (s : CoordState) (gid : String) (sch : List Bool) :
    bingoLe s.store.groups (checkGroupConsensus s gid sch).1.store.groups := by
  unfold checkGroupConsensus
  dsimp only
  split
  · exact bingoLe_refl _
  · split
    · exact bingoLe_refl _
    · split
      · exact bingoLe_refl _
      · split
        · exact bingoLe_refl _
        · split
          · exact bingoLe_refl _
          · split
            · exact bingoLe_refl _
            · split
              · exact bingoLe_refl _
              · rename_i store1 hsga
                have hle1 := (setGroupAnswer_parts hsga).1
                split
                · exact hle1
                · split
                  · exact hle1
                  · split
                    · split
                      · split
                        · exact hle1
                        · split
                          · exact hle1
                          · rename_i store2 hsgb
                            exact bingoLe_trans hle1 (setGroupBingo_bingoLe hsgb)
                      · exact hle1
                    · exact hle1

theorem revealLoop_bingoLe (boardSize : Nat) (groups : List GroupRow) (s : CoordState)
    (out : List (String × OutMsg)) (sch : List Bool) :
    bingoLe s.store.groups (revealLoop boardSize groups s out sch).2.1.store.groups := by
  induction groups generalizing s out sch with
  | nil => exact bingoLe_refl _
  | cons g rest ih =>
    unfold revealLoop
    dsimp only
    split
    · exact ih s out sch
    · split
      · exact ih s out sch
      · split
        · exact bingoLe_refl _
        · split
          · exact bingoLe_refl _
          · rename_i store1 hrpa
            have h1 := (recordPlayerAnswer_parts hrpa).1
            split
            · rw [h1]
              exact bingoLe_refl _
            · split
              · rw [h1]
                exact bingoLe_refl _
              · rename_i store2 hsga
                have h2 := (setGroupAnswer_parts hsga).1
                rw [h1] at h2
                split
                · exact h2
                · split
                  · exact h2
                  · split
                    · split
                      · rename_i bingoPattern hbp
                        split
                        · exact h2
                        · split
                          · exact h2
                          · rename_i store3 hsgb
                            have h3 := ih { s with store := store3 }
                              (out ++ broadcastAll s.conns (OutMsg.bingoAchieved g.id g.name
                                g.players bingoPattern boardSize))
                              (takeFault (takeFault (takeFault (takeFault sch).2).2).2).2
                            exact bingoLe_trans h2
                              (bingoLe_trans (setGroupBingo_bingoLe hsgb) h3)
                      · exact bingoLe_trans h2
                          (ih { s with store := store2 } out (takeFault (takeFault (takeFault sch).2).2).2)
                    · exact bingoLe_trans h2
                        (ih { s with store := store2 } out (takeFault (takeFault (takeFault sch).2).2).2)

theorem handleRevealAnswer_bingoLe (s : CoordState) (sch : List Bool) :
    bingoLe s.store.groups (handleRevealAnswer s sch).1.store.groups := by
  unfold handleRevealAnswer
  dsimp only
  split
  · exact bingoLe_refl _
  · split
    · exact bingoLe_refl _
    · split
      · exact revealLoop_bingoLe _ _ _ _ _
      · exact revealLoop_bingoLe _ _ _ _ _

theorem handleHostSelection_store (s : CoordState) (cid pos : String) (t : Nat)
    (sch : List Bool) : (handleHostSelection s cid pos t sch).1.store = s.store := by
  unfold handleHostSelection
  dsimp only
  split
  · rfl
  · split
    · rfl
    · rfl

theorem handlePlayerAnswer_store (s : CoordState) (pid cid pos : String) (sch : List Bool) :
    (handlePlayerAnswer s pid cid pos sch).1.store = s.store := by
  unfold handlePlayerAnswer
  dsimp only
  split
  · rfl
  · split
    · rfl
    · split
      · rfl
      · rfl

theorem handleEvent_bingoLe (ev : InEvent) (s : CoordState) (sch : List Bool) :
    bingoLe s.store.groups (hresState (handleEvent ev s sch)).store.groups := by
  cases ev with
  | startGame =>
    unfold handleEvent handleStartGame
    dsimp only
    split
    · exact bingoLe_refl _
    · split
      · exact bingoLe_refl _
      · split
        · exact bingoLe_refl _
        · exact bingoLe_refl _
  | endGame =>
    unfold handleEvent handleEndGame
    dsimp only
    split
    · exact bingoLe_refl _
    · split
      · exact bingoLe_refl _
      · split
        · exact bingoLe_refl _
        · exact bingoLe_refl _
  | nextQuestion =>
    unfold handleEvent handleNextQuestion
    dsimp only
    split
    · exact bingoLe_refl _
    · split
      · exact bingoLe_refl _
      · split
        · exact bingoLe_refl _
        · split
          · split
            · exact bingoLe_refl _
            · exact bingoLe_refl _
          · rename_i q store1 hgnq
            have h1 : store1.groups = s.store.groups := by
              have h0 := (getNextQuestion_parts s.store).1
              rw [hgnq] at h0
              exact h0
            split
            · show bingoLe s.store.groups store1.groups
              rw [h1]
              exact bingoLe_refl _
            · show bingoLe s.store.groups store1.groups
              rw [h1]
              exact bingoLe_refl _
  | selectAnswer pid cid =>
    unfold handleEvent handleSelectAnswer
    dsimp only
    split
    · exact bingoLe_refl _
    · split
      · exact bingoLe_refl _
      · split
        · exact bingoLe_refl _
        · split
          · exact bingoLe_refl _
          · rename_i grp hfind
            split
            · exact bingoLe_refl _
            · split
              · exact bingoLe_refl _
              · rename_i store1 hrpa
                have h1 := (recordPlayerAnswer_parts hrpa).1
                have h2 : bingoLe store1.groups
                    ((checkGroupConsensus { s with store := store1 } grp.id
                      (takeFault (takeFault sch).2).2).1.store.groups) :=
                  checkGroupConsensus_bingoLe { s with store := store1 } grp.id
                    (takeFault (takeFault sch).2).2
                rw [h1] at h2
                exact h2
  | hostSelected cid pos t =>
    show bingoLe s.store.groups (handleHostSelection s cid pos t sch).1.store.groups
    rw [handleHostSelection_store]
    exact bingoLe_refl _
  | revealAnswer cid pos =>
    exact handleRevealAnswer_bingoLe s sch
  | answerSelect pid cid pos =>
    show bingoLe s.store.groups (handlePlayerAnswer s pid cid pos sch).1.store.groups
    rw [handlePlayerAnswer_store]
    exact bingoLe_refl _
  | unknownType t => exact bingoLe_refl _

theorem dispatch_fst (origin : String) (ev : InEvent) (s : CoordState) (sch : List Bool) :
    (dispatch origin ev s sch).1 = hresState (handleEvent ev s sch) := by
  cases h : handleEvent ev s sch with
  | ok s1 out sch1 => simp [dispatch, h, hresState]
  | err s1 out sch1 => simp [dispatch, h, hresState]

theorem checkGroupConsensus_no_votes (s : CoordState) (gid : String) (sch : List Bool)
    (h : getGroupAnswers s.store gid = []) :
    ∃ sch1, checkGroupConsensus s gid sch = (s, [], sch1) := by
  unfold checkGroupConsensus
  dsimp only
  by_cases hf : (takeFault sch).1 = true
  · exact ⟨(takeFault sch).2, by rw [if_pos hf]⟩
  · rw [if_neg hf]
    rcases hfd : (getGame s.store).groups.find? fun g => decide (g.id = gid) with _ | group
    · rw [hfd]
      exact ⟨(takeFault sch).2, rfl⟩
    · rw [hfd]
      dsimp only
      by_cases hf2 : (takeFault (takeFault sch).2).1 = true
      · rw [if_pos hf2]
        exact ⟨(takeFault (takeFault sch).2).2, rfl⟩
      · rw [if_neg hf2, h]
        exact ⟨(takeFault (takeFault sch).2).2, rfl⟩

/-- Claim C2 (amended): a group's `hasBingo`, once true, survives every
inbound event under every fault schedule (`setGroupBingo` only ever sets it
to true and nothing clears it), and consensus-path bingo detection does
nothing when the group has no recorded votes; but the detection is NOT
guarded by `hasBingo` — a group that already has bingo can run it again and
re-broadcast `bingo_achieved`. -/
theorem claim2_amended (origin : String) (ev : InEvent) (s : CoordState) (sch : List Bool) :
    bingoLe s.store.groups ((dispatch origin ev s sch).1.store.groups) ∧
    ∀ gid, getGroupAnswers s.store gid = [] →
      ∃ sch1, checkGroupConsensus s gid sch = (s, [], sch1) := by
  refine ⟨?_, fun gid h => checkGroupConsensus_no_votes s gid sch h⟩
  rw [dispatch_fst]
  exact handleEvent_bingoLe ev s sch

/-- Counterexample to claim C2 as stated: in `exBingoState` the single
group already has `hasBingo = true`, yet one more `select_answer` vote
reaches consensus, re-runs bingo detection, and re-broadcasts
`bingo_achieved` to both open connections. -/
theorem claim2_counterexample :
    (exBingoState.store.groups.map fun g => g.hasBingo) = [true] ∧
    ((dispatch "p1" (InEvent.selectAnswer "p1" "cell-A1") exBingoState []).2.1.filter
      fun pm => isBingoAchieved pm.2).length = 2 :=
  ⟨rfl, rfl⟩

/-- Witness for C2 (amended): after an unrelated inbound event the group of
`exBingoState` still has bingo. -/
theorem claim2_witness :
    ((dispatch "host" (InEvent.unknownType "ping") exBingoState []).1.store.groups.map
      fun g => g.hasBingo) = [true] := by
  have h := (claim2_amended "host" (InEvent.unknownType "ping") exBingoState []).1
  cases h with
  | cons hr hrest =>
    cases hrest
    exact congrArg (fun b => [b]) (hr rfl)

end Bingo

namespace Bingo

/-- Claim C4 (amended): for the rethrowing handlers — `start_game`,
`end_game`, `next_question` and `select_answer` — a storage failure (or
precondition violation) that escapes the handler produces no other
messages, surfaces exactly one `error` event on the originating connection,
and leaves the game's lifecycle status unchanged.  (As stated the claim is
false: storage failures inside `checkGroupConsensus` and inside the
`host_selected`/`answer_select`/`reveal_answer` handlers are logged and
swallowed without surfacing an `error`, and a failure after
`getNextQuestion` leaves the fetched question marked used without it ever
becoming the stored current question.) -/
theorem claim4_amended (s : CoordState) (sch : List Bool) (origin : String) (ev : InEvent)
    (hev : ev = InEvent.startGame ∨ ev = InEvent.endGame ∨ ev = InEvent.nextQuestion ∨
      ∃ pid cid, ev = InEvent.selectAnswer pid cid)
    (s1 : CoordState) (out : List (String × OutMsg)) (sch1 : List Bool)
    (herr : handleEvent ev s sch = HRes.err s1 out sch1) :
    s1.store.game.status = s.store.game.status ∧ out = [] ∧
    dispatch origin ev s sch
      = (s1, [(origin, OutMsg.errorMsg "Failed to process message")], sch1) := by
  have hmain : s1.store.game.status = s.store.game.status ∧ out = [] := by
    rcases hev with rfl | rfl | rfl | ⟨pid, cid, rfl⟩
    · unfold handleEvent handleStartGame at herr
      dsimp only at herr
      split at herr
      · injection herr with h1 h2 h3
        subst h1
        subst h2
        exact ⟨rfl, rfl⟩
      · split at herr
        · injection herr with h1 h2 h3
          subst h1
          subst h2
          exact ⟨rfl, rfl⟩
        · split at herr
          · injection herr with h1 h2 h3
            subst h1
            subst h2
            exact ⟨rfl, rfl⟩
          · exact HRes.noConfusion herr
    · unfold handleEvent handleEndGame at herr
      dsimp only at herr
      split at herr
      · injection herr with h1 h2 h3
        subst h1
        subst h2
        exact ⟨rfl, rfl⟩
      · split at herr
        · injection herr with h1 h2 h3
          subst h1
          subst h2
          exact ⟨rfl, rfl⟩
        · split at herr
          · injection herr with h1 h2 h3
            subst h1
            subst h2
            exact ⟨rfl, rfl⟩
          · exact HRes.noConfusion herr
    · unfold handleEvent handleNextQuestion at herr
      dsimp only at herr
      split at herr
      · injection herr with h1 h2 h3
        subst h1
        subst h2
        exact ⟨rfl, rfl⟩
      · split at herr
        · injection herr with h1 h2 h3
          subst h1
          subst h2
          exact ⟨rfl, rfl⟩
        · split at herr
          · injection herr with h1 h2 h3
            subst h1
            subst h2
            exact ⟨rfl, rfl⟩
          · split at herr
            · split at herr
              · injection herr with h1 h2 h3
                subst h1
                subst h2
                exact ⟨rfl, rfl⟩
              · exact HRes.noConfusion herr
            · rename_i q store1 hgnq
              split at herr
              · injection herr with h1 h2 h3
                subst h1
                subst h2
                refine ⟨?_, rfl⟩
                show store1.game.status = s.store.game.status
                have h0 := (getNextQuestion_parts s.store).2
                rw [hgnq] at h0
                rw [show store1.game = s.store.game from h0]
              · exact HRes.noConfusion herr
    · unfold handleEvent handleSelectAnswer at herr
      dsimp only at herr
      split at herr
      · injection herr with h1 h2 h3
        subst h1
        subst h2
        exact ⟨rfl, rfl⟩
      · split at herr
        · injection herr with h1 h2 h3
          subst h1
          subst h2
          exact ⟨rfl, rfl⟩
        · split at herr
          · injection herr with h1 h2 h3
            subst h1
            subst h2
            exact ⟨rfl, rfl⟩
          · split at herr
            · injection herr with h1 h2 h3
              subst h1
              subst h2
              exact ⟨rfl, rfl⟩
            · split at herr
              · injection herr with h1 h2 h3
                subst h1
                subst h2
                exact ⟨rfl, rfl⟩
              · split at herr
                · injection herr with h1 h2 h3
                  subst h1
                  subst h2
                  exact ⟨rfl, rfl⟩
                · exact HRes.noConfusion herr
  refine ⟨hmain.1, hmain.2, ?_⟩
  unfold dispatch
  rw [herr, hmain.2]
  rfl

/-- Counterexample to claim C4 as stated: (i) a `select_answer` whose fifth
storage call — the `setGroupAnswer` inside `checkGroupConsensus` — fails
(the whole fault schedule is consumed) completes with NO error event at
all, with the vote row already committed to storage and with the
`game_update` broadcast still sent; (ii) a `next_question` whose
`updateCurrentQuestion` call fails does surface an error, but leaves the
fetched question `"a"` consumed (marked used) while the stored current
question remains the previous one, `"b"`. -/
theorem claim4_counterexample :
    ((dispatch "p1" (InEvent.selectAnswer "p1" "cell-A1") exBingoState
        [false, false, false, false, true]).2.1.filter fun pm => isErrorMsg pm.2) = [] ∧
    (dispatch "p1" (InEvent.selectAnswer "p1" "cell-A1") exBingoState
        [false, false, false, false, true]).2.2 = [] ∧
    (dispatch "p1" (InEvent.selectAnswer "p1" "cell-A1") exBingoState
        [false, false, false, false, true]).1.store.playerAnswers
        = [⟨"q1", "p1", "g1", "cell-A1", "A1"⟩] ∧
    ((dispatch "p1" (InEvent.selectAnswer "p1" "cell-A1") exBingoState
        [false, false, false, false, true]).2.1.filter
        fun pm => !(isErrorMsg pm.2)).length = 2 ∧
    (dispatch "host" InEvent.nextQuestion exTwoQuestionState [false, false, true]).2.1
        = [("host", OutMsg.errorMsg "Failed to process message")] ∧
    (dispatch "host" InEvent.nextQuestion exTwoQuestionState
        [false, false, true]).1.store.questions
        = [⟨"b", "Qb", "Ab", true⟩, ⟨"a", "Qa", "Aa", true⟩] ∧
    currentQuestionOf (dispatch "host" InEvent.nextQuestion exTwoQuestionState
        [false, false, true]).1.store = some ⟨"b", "Qb", 30⟩ :=
  ⟨rfl, rfl, rfl, rfl, rfl, rfl, rfl⟩

/-- Witness for C4 (amended): a `getGame` fault during `next_question`
yields exactly one `error` on the originating connection and an unchanged
state. -/
theorem claim4_witness :
    dispatch "host" InEvent.nextQuestion exTwoQuestionState [true]
      = (exTwoQuestionState,
         [("host", OutMsg.errorMsg "Failed to process message")], []) :=
  (claim4_amended exTwoQuestionState [true] "host" InEvent.nextQuestion
    (Or.inr (Or.inr (Or.inl rfl))) exTwoQuestionState [] [] rfl).2.2

theorem broadcastAll_mem {conns : List (String × Bool)} {c : String × Bool} (m : OutMsg)
    (hc : c ∈ conns) (hopen : c.2 = true) : (c.1, m) ∈ broadcastAll conns m := by
  unfold broadcastAll
  refine List.mem_flatMap.mpr ⟨c, hc, ?_⟩
  rw [if_pos hopen]
  exact List.mem_singleton.mpr rfl

/-- Claim C7: on an active game, a fault-free `next_question` with no
unused question left sets the game's status to `completed`, broadcasts the
refreshed view and sends `game_over` to every open socket; otherwise the
fetched question becomes the stored current question and the role-scoped
`game_update` snapshots of the refreshed view are broadcast. -/
theorem claim7_next_question (origin : String) (s : CoordState)
    (hactive : s.store.game.status = GameStatus.active) :
    ((getNextQuestion s.store).1 = none →
      (dispatch origin InEvent.nextQuestion s []).1.store.game.status
        = GameStatus.completed ∧
      (dispatch origin InEvent.nextQuestion s []).2.1
        = sendGameUpdateMsgs s.conns
            (getGame (updateGameStatus s.store GameStatus.completed))
          ++ broadcastAll s.conns (OutMsg.gameOver "All questions have been answered") ∧
      ∀ c ∈ s.conns, c.2 = true →
        (c.1, OutMsg.gameOver "All questions have been answered")
          ∈ (dispatch origin InEvent.nextQuestion s []).2.1) ∧
    ∀ q, (getNextQuestion s.store).1 = some q →
      currentQuestionOf (dispatch origin InEvent.nextQuestion s []).1.store = some q ∧
      (dispatch origin InEvent.nextQuestion s []).2.1
        = sendGameUpdateMsgs s.conns
            (getGame (updateCurrentQuestion (getNextQuestion s.store).2 q)) := by
  have hst : ¬ (getGame s.store).status ≠ GameStatus.active := by
    show ¬ s.store.game.status ≠ GameStatus.active
    rw [hactive]
    exact fun h => h rfl
  rcases hg : getNextQuestion s.store with ⟨qopt, st1⟩
  constructor
  · intro hqnone
    have hqn : qopt = none := hqnone
    subst hqn
    have hd : dispatch origin InEvent.nextQuestion s []
        = ({ s with store := updateGameStatus s.store GameStatus.completed },
           sendGameUpdateMsgs s.conns
             (getGame (updateGameStatus s.store GameStatus.completed))
             ++ broadcastAll s.conns (OutMsg.gameOver "All questions have been answered"),
           []) := by
      unfold dispatch handleEvent handleNextQuestion
      dsimp only
      rw [if_neg hst, hg]
      rfl
    rw [hd]
    refine ⟨rfl, rfl, ?_⟩
    intro c hc hopen
    exact List.mem_append_right _
      (broadcastAll_mem (OutMsg.gameOver "All questions have been answered") hc hopen)
  · intro q hq
    have hqs : qopt = some q := hq
    subst hqs
    have hd : dispatch origin InEvent.nextQuestion s []
        = ({ s with store := updateCurrentQuestion st1 q },
           sendGameUpdateMsgs s.conns (getGame (updateCurrentQuestion st1 q)), []) := by
      unfold dispatch handleEvent handleNextQuestion
      dsimp only
      rw [if_neg hst, hg]
      rfl
    rw [hd]
    exact ⟨rfl, rfl⟩

/-- Witness for C7 at concrete states: with an unused question left
(`exTwoQuestionState`) the fetched question `"a"` becomes the stored
current question; with every question used (`exExhaustedState`) the game
completes and the open `host` socket receives `game_over`. -/
theorem claim7_witness :
    currentQuestionOf (dispatch "host" InEvent.nextQuestion exTwoQuestionState []).1.store
      = some ⟨"a", "Qa", 30⟩ ∧
    (dispatch "host" InEvent.nextQuestion exExhaustedState []).1.store.game.status
      = GameStatus.completed ∧
    ("host", OutMsg.gameOver "All questions have been answered")
      ∈ (dispatch "host" InEvent.nextQuestion exExhaustedState []).2.1 := by
  refine ⟨?_, ?_, ?_⟩
  · exact ((claim7_next_question "host" exTwoQuestionState rfl).2 ⟨"a", "Qa", 30⟩ rfl).1
  · exact ((claim7_next_question "host" exExhaustedState rfl).1 rfl).1
  · exact ((claim7_next_question "host" exExhaustedState rfl).1 rfl).2.2 ("host", true)
      (List.mem_singleton.mpr rfl) rfl

end Bingo
